import Mathlib

/-
Verification of the gmail-mcp repository.

This development shallowly embeds the two algorithmically interesting parts
of the repository:

* the HTML table-layout unwrapper of the `format` package
  (`UnwrapTableLayout`, `simplifyNode`, `shouldUnwrapTable`,
  `extractTableContent`, ... — `internal/format`), and
* the message-body / attachment extraction of the `tool` package
  (`extractMessageBodies`, `decodeBase64URL`, `extractAttachments`,
  `findAttachmentMetadata`, `PreviewAttachments` — `internal/tool`).

HTML documents are modelled as a tree of nodes mirroring `golang.org/x/net/html`:
`html.Node` has a node type (Document/Element/Text/Comment/Doctype), a `Data`
string, an ordered attribute list and an ordered child list.  Childless
non-element non-text nodes (comments, doctypes, error nodes) behave identically
in all code under verification and are modelled by the single `comment`
constructor.  Parsing and rendering of HTML bytes live in the external
`golang.org/x/net/html` library, outside this repository; they are taken as
parameters (`parse`, `render`) of the byte-level `UnwrapTableLayout`.

Go strings that carry raw bytes (base64 payloads and decoded bodies) are
modelled as `List Nat` (byte values); strings used only as tags, attribute
values and MIME names are modelled as Lean `String`.
-/

namespace GmailMCP

/-- Whitespace as trimmed by Go's `strings.TrimSpace` via `unicode.IsSpace`,
restricted to the Latin-1 range actually relevant here: space, \t, \n,
vertical tab, form feed, \r, NEL (U+0085) and NBSP (U+00A0). -/
def goIsSpace (c : Char) : Bool :=
  decide (c = ' ' ∨ c = '\t' ∨ c = '\n' ∨ c = Char.ofNat 11 ∨ c = Char.ofNat 12 ∨
    c = '\r' ∨ c = Char.ofNat 133 ∨ c = Char.ofNat 160)

/-- Go `strings.TrimSpace`: drop leading and trailing whitespace. -/
def trimSpace (s : String) : String :=
  (((s.toList.dropWhile goIsSpace).reverse.dropWhile goIsSpace).reverse).asString

/-- Go `strings.Contains sub s`: substring occurrence, on character lists. -/
def goContains (s sub : String) : Bool :=
  decide (sub.toList <:+: s.toList)

/-- The node tree of `golang.org/x/net/html` as used by the unwrapper.
`doc` is a DocumentNode, `elem` an ElementNode with tag, attributes
(key/value pairs, in order) and children, `text` a TextNode.  `comment`
stands for the remaining childless node types (CommentNode, DoctypeNode,
ErrorNode), which every function below treats alike. -/
inductive Node where
  | doc (children : List Node)
  | elem (tag : String) (attrs : List (String × String)) (children : List Node)
  | text (data : String)
  | comment (data : String)

/-- Ordered child list of a node (`FirstChild`/`NextSibling` chain). -/
def Node.children : Node → List Node
  | .doc cs => cs
  | .elem _ _ cs => cs
  | .text _ => []
  | .comment _ => []

/-- Mutual induction principle for `Node` and `List Node`. -/
theorem node_ind (P : Node → Prop) (Q : List Node → Prop)
    (hdoc : ∀ cs, Q cs → P (.doc cs))
    (helem : ∀ t a cs, Q cs → P (.elem t a cs))
    (htext : ∀ s, P (.text s))
    (hcomment : ∀ s, P (.comment s))
    (hnil : Q [])
    (hcons : ∀ n l, P n → Q l → Q (n :: l)) :
    (∀ n, P n) ∧ (∀ l, Q l) :=
  have hP : ∀ n, P n := fun n => Node.rec hdoc helem htext hcomment hnil hcons n
  ⟨hP, fun l => List.rec hnil (fun n t ih => hcons n t (hP n) ih) l⟩

mutual

/-- Structural equality test for nodes. -/
def beqNode : Node → Node → Bool
  | .doc cs, .doc ds => beqNodeList cs ds
  | .elem t a cs, .elem u b ds => (t == u) && (a == b) && beqNodeList cs ds
  | .text d, .text e => d == e
  | .comment d, .comment e => d == e
  | _, _ => false

def beqNodeList : List Node → List Node → Bool
  | [], [] => true
  | n :: l, m :: r => beqNode n m && beqNodeList l r
  | _, _ => false

end

theorem beqNode_iff :
    (∀ a b, beqNode a b = true ↔ a = b) ∧
    (∀ l m, beqNodeList l m = true ↔ l = m) := by
  refine node_ind (fun a => ∀ b, beqNode a b = true ↔ a = b)
    (fun l => ∀ m, beqNodeList l m = true ↔ l = m) ?_ ?_ ?_ ?_ ?_ ?_
  · intro cs ih b
    cases b <;> simp [beqNode, ih]
  · intro t a cs ih b
    cases b <;> simp [beqNode, ih, and_assoc]
  · intro s b
    cases b <;> simp [beqNode]
  · intro s b
    cases b <;> simp [beqNode]
  · intro m
    cases m <;> simp [beqNodeList]
  · intro n l ihn ihl m
    cases m <;> simp [beqNodeList, ihn, ihl]

instance : DecidableEq Node := fun a b => decidable_of_iff _ (beqNode_iff.1 a b)

/-! ## The `format` package (src/unnamed/part_008) -/

/-- Go `isTableElement`. -/
def isTableElement (tag : String) : Bool :=
  decide (tag = "table" ∨ tag = "tbody" ∨ tag = "thead" ∨
    tag = "tfoot" ∨ tag = "tr" ∨ tag = "td" ∨ tag = "th")

mutual

/-- Go `hasTextContent`: some descendant text node has data that is
non-blank after trimming and is not the literal `"&nbsp;"`. -/
def hasTextContent : Node → Bool
  | .text d => decide (trimSpace d ≠ "" ∧ trimSpace d ≠ "&nbsp;")
  | .doc cs => hasTextContentList cs
  | .elem _ _ cs => hasTextContentList cs
  | .comment _ => false

def hasTextContentList : List Node → Bool
  | [] => false
  | n :: l => hasTextContent n || hasTextContentList l

end

mutual

/-- Go `hasTableHeaders`: a `th` or `thead` element occurs in the subtree
(the visited node itself included). -/
def hasTableHeaders : Node → Bool
  | .elem t _ cs => decide (t = "th" ∨ t = "thead") || hasTableHeadersList cs
  | .doc cs => hasTableHeadersList cs
  | .text _ => false
  | .comment _ => false

def hasTableHeadersList : List Node → Bool
  | [] => false
  | n :: l => hasTableHeaders n || hasTableHeadersList l

end

/-- Is this node a `td` or `th` element? -/
def isCellElem : Node → Bool
  | .elem t _ _ => decide (t = "td" ∨ t = "th")
  | _ => false

/-- Is this node a `tr` element? -/
def isTrElem : Node → Bool
  | .elem t _ _ => decide (t = "tr")
  | _ => false

/-- Go `countCellsInRow`: number of `td`/`th` elements among direct children. -/
def countCellsInRow (row : Node) : Nat :=
  row.children.countP isCellElem

mutual

/-- Go `countTableColumns`: the maximum, over every `tr` element in the
subtree, of its direct `td`/`th` cell count. -/
def countTableColumns : Node → Nat
  | .elem t a cs =>
      max (if isTrElem (.elem t a cs) then countCellsInRow (.elem t a cs) else 0)
        (countTableColumnsList cs)
  | .doc cs => countTableColumnsList cs
  | .text _ => 0
  | .comment _ => 0

def countTableColumnsList : List Node → Nat
  | [] => 0
  | n :: l => max (countTableColumns n) (countTableColumnsList l)

end

mutual

/-- Go `countContentRows`: number of `tr` elements in the subtree that have
text content (per `hasTextContent`). -/
def countContentRows : Node → Nat
  | .elem t a cs =>
      (if isTrElem (.elem t a cs) && hasTextContent (.elem t a cs) then 1 else 0) +
        countContentRowsList cs
  | .doc cs => countContentRowsList cs
  | .text _ => 0
  | .comment _ => 0

def countContentRowsList : List Node → Nat
  | [] => 0
  | n :: l => countContentRows n + countContentRowsList l

end

mutual

/-- Go `collectRowCellCounts`: cell counts of every `tr` in the subtree,
in preorder. -/
def collectRowCellCounts : Node → List Nat
  | .elem t a cs =>
      (if isTrElem (.elem t a cs) then [countCellsInRow (.elem t a cs)] else []) ++
        collectRowCellCountsList cs
  | .doc cs => collectRowCellCountsList cs
  | .text _ => []
  | .comment _ => []

def collectRowCellCountsList : List Node → List Nat
  | [] => []
  | n :: l => collectRowCellCounts n ++ collectRowCellCountsList l

end

/-- Go `areAllCountsEqual`: at least two entries and all equal to the first. -/
def areAllCountsEqual : List Nat → Bool
  | [] => false
  | [_] => false
  | c :: rest => rest.all fun x => decide (x = c)

/-- Go `hasConsistentRowStructure`. -/
def hasConsistentRowStructure (table : Node) : Bool :=
  areAllCountsEqual (collectRowCellCounts table)

/-- The `id`-attribute test inside Go `shouldUnwrapTable`: some attribute
with key `id` whose value is exactly `"main"` or contains `"layout"` or
`"wrapper"`. -/
def idSuggestsLayout (table : Node) : Bool :=
  match table with
  | .elem _ a _ =>
      a.any fun attr =>
        decide (attr.1 = "id") &&
          (decide (attr.2 = "main") || goContains attr.2 "layout" || goContains attr.2 "wrapper")
  | _ => false

/-- Go `shouldUnwrapTable`: the first-match rule chain. -/
def shouldUnwrapTable (table : Node) : Bool :=
  if hasTableHeaders table then false
  else if 1 < countTableColumns table then false
  else if idSuggestsLayout table then true
  else if 5 < countContentRows table ∧ hasConsistentRowStructure table = true then false
  else true

mutual

/-- Go `cloneNode`: deep copy of type, data, attributes and children. -/
def cloneNode : Node → Node
  | .doc cs => .doc (cloneNodeList cs)
  | .elem t a cs => .elem t a (cloneNodeList cs)
  | .text d => .text d
  | .comment d => .comment d

def cloneNodeList : List Node → List Node
  | [] => []
  | n :: l => cloneNode n :: cloneNodeList l

end

mutual

/-- Go `extractTableContent(n, *content)`: appends the extracted nodes to the
accumulator `content`.  Table-structural elements are elided (children
processed in place), a `tr` appends a `"\n"` text node when the row grew the
accumulator, other elements are deep-cloned and kept whole, non-whitespace
text is copied, everything else is dropped. -/
def extractTableContent (n : Node) (content : List Node) : List Node :=
  match n with
  | .elem t a cs =>
      if isTableElement t then
        if t = "tr" then
          if content.length < (extractTableContentList cs content).length then
            extractTableContentList cs content ++ [.text "\n"]
          else extractTableContentList cs content
        else extractTableContentList cs content
      else content ++ [cloneNode (.elem t a cs)]
  | .text d => if trimSpace d ≠ "" then content ++ [.text d] else content
  | .doc _ => content
  | .comment _ => content

def extractTableContentList (cs : List Node) (content : List Node) : List Node :=
  match cs with
  | [] => content
  | n :: l => extractTableContentList l (extractTableContent n content)

end

/-- Go `unwrapTable`: the nodes that replace the table in its parent's child
list (the parent-side splice itself happens in `simplifyNode`/`simplifyList`;
with no parent the extracted list is discarded, see `simplifyRoot`). -/
def unwrapTable (table : Node) : List Node :=
  extractTableContent table []

mutual

/-- Go `simplifyNode`, seen from the parent: the list of nodes that replace
`n` in its parent's child list, and the `changed` flag.  Children are
simplified first (bottom-up); then a `table` element satisfying
`shouldUnwrapTable` is replaced by its extracted content. -/
def simplifyNode : Node → List Node × Bool
  | .text d => ([.text d], false)
  | .comment d => ([.comment d], false)
  | .doc cs =>
      let r := simplifyList cs
      ([.doc r.1], r.2)
  | .elem t a cs =>
      let r := simplifyList cs
      if t = "table" ∧ shouldUnwrapTable (Node.elem t a r.1) = true then
        (unwrapTable (Node.elem t a r.1), true)
      else ([Node.elem t a r.1], r.2)

def simplifyList : List Node → List Node × Bool
  | [] => ([], false)
  | n :: l =>
      let r := simplifyNode n
      let r' := simplifyList l
      (r.1 ++ r'.1, r.2 || r'.2)

end

/-- One pass of Go `simplifyNode` applied to the root of the tree: the root
has no parent, so when the root itself is an unwrappable table,
`unwrapTable` finds `Parent == nil` and changes nothing (yet reports
`changed`). -/
def simplifyRoot (n : Node) : Node × Bool :=
  match n with
  | .doc cs =>
      let r := simplifyList cs
      (.doc r.1, r.2)
  | .elem t a cs =>
      let r := simplifyList cs
      if t = "table" ∧ shouldUnwrapTable (Node.elem t a r.1) = true then
        (Node.elem t a r.1, true)
      else (Node.elem t a r.1, r.2)
  | .text d => (.text d, false)
  | .comment d => (.comment d, false)

/-- The fixed-point loop of Go `UnwrapTableLayout`: up to `fuel` passes,
stopping early when a pass reports no change. -/
def simplifyIter : Nat → Node → Node
  | 0, n => n
  | fuel + 1, n =>
      let r := simplifyRoot n
      if r.2 then simplifyIter fuel r.1 else r.1

/-- Go `UnwrapTableLayout`, with the external `html.Parse` / `html.Render`
as parameters: parse failure returns the input unchanged, then up to 10
simplification passes, then render; render failure returns the original
input. -/
def UnwrapTableLayout (parse : List Nat → Option Node)
    (render : Node → Option (List Nat)) (htmlContent : List Nat) : List Nat :=
  match parse htmlContent with
  | none => htmlContent
  | some doc =>
      match render (simplifyIter 10 doc) with
      | none => htmlContent
      | some out => out

/-! ## Subtree enumeration, and the classification chain as the spec words it -/

mutual

/-- All subtrees of a node (the node itself included), in preorder. -/
def subtrees : Node → List Node
  | .doc cs => Node.doc cs :: subtreesList cs
  | .elem t a cs => Node.elem t a cs :: subtreesList cs
  | .text d => [.text d]
  | .comment d => [.comment d]

def subtreesList : List Node → List Node
  | [] => []
  | n :: l => subtrees n ++ subtreesList l

end

/-- Maximum of a list of naturals (`0` for the empty list). -/
def maxList (l : List Nat) : Nat := l.foldr max 0

/-- Is this node a `th` or `thead` element? -/
def isHeaderElem : Node → Bool
  | .elem t _ _ => decide (t = "th" ∨ t = "thead")
  | _ => false

/-- A text node that is non-blank: non-whitespace and not the literal
`"&nbsp;"` placeholder. -/
def textNonBlank : Node → Bool
  | .text d => decide (trimSpace d ≠ "" ∧ trimSpace d ≠ "&nbsp;")
  | _ => false

/-- All `tr` elements in the table's subtree. -/
def specRows (t : Node) : List Node := (subtrees t).filter isTrElem

/-- The list of per-row cell counts. -/
def specCellCounts (t : Node) : List Nat := (specRows t).map countCellsInRow

/-- Number of rows with non-whitespace text content (`"&nbsp;"` treated as
blank). -/
def specContentRowCount (t : Node) : Nat :=
  (specRows t).countP fun r => (subtrees r).any textNonBlank

/-- The per-row cell count list has length at least 2 and all entries equal. -/
def specAllCellCountsEqual (t : Node) : Bool :=
  decide (2 ≤ (specCellCounts t).length) &&
    (specCellCounts t).all fun x => decide (x = (specCellCounts t).headD 0)

/-- The unwrap decision exactly as the specification words it: a first-match
rule chain over subtree-level quantities. -/
def specShouldUnwrapTable (t : Node) : Bool :=
  if (subtrees t).any isHeaderElem then false
  else if 1 < maxList (specCellCounts t) then false
  else if idSuggestsLayout t then true
  else if 5 < specContentRowCount t ∧ specAllCellCountsEqual t = true then false
  else true

/-! ## Basic lemmas about the traversals -/

theorem maxList_cons (x : Nat) (l : List Nat) : maxList (x :: l) = max x (maxList l) := rfl

theorem maxList_append (a b : List Nat) : maxList (a ++ b) = max (maxList a) (maxList b) := by
  induction a with
  | nil => simp [maxList]
  | cons x a ih => simp [maxList_cons, ih, Nat.max_assoc]

theorem le_maxList_of_mem {x : Nat} {l : List Nat} (h : x ∈ l) : x ≤ maxList l := by
  induction l with
  | nil => cases h
  | cons y l ih =>
      rcases List.mem_cons.mp h with h | h
      · subst h; exact Nat.le_max_left _ _
      · exact Nat.le_trans (ih h) (Nat.le_max_right _ _)

theorem maxList_le {k : Nat} {l : List Nat} (h : ∀ x ∈ l, x ≤ k) : maxList l ≤ k := by
  induction l with
  | nil => exact Nat.zero_le _
  | cons y l ih =>
      rw [maxList_cons]
      exact Nat.max_le.mpr ⟨h y (List.mem_cons_self y l), ih fun x hx => h x (List.mem_cons_of_mem _ hx)⟩

theorem mem_subtrees_self (n : Node) : n ∈ subtrees n := by
  cases n <;> simp [subtrees]

theorem subtrees_ne_nil (n : Node) : subtrees n ≠ [] := by
  intro h
  exact absurd (h ▸ mem_subtrees_self n) (List.not_mem_nil n)

theorem subtrees_trans_all :
    (∀ n, ∀ m ∈ subtrees n, subtrees m ⊆ subtrees n) ∧
    (∀ l, ∀ m ∈ subtreesList l, subtrees m ⊆ subtreesList l) := by
  refine node_ind _ _ ?_ ?_ ?_ ?_ ?_ ?_
  · intro cs ih m hm
    rw [subtrees] at hm ⊢
    rcases List.mem_cons.mp hm with h | h
    · subst h; exact fun x hx => hx
    · exact fun x hx => List.mem_cons_of_mem _ (ih m h hx)
  · intro t a cs ih m hm
    rw [subtrees] at hm ⊢
    rcases List.mem_cons.mp hm with h | h
    · subst h; exact fun x hx => hx
    · exact fun x hx => List.mem_cons_of_mem _ (ih m h hx)
  · intro s m hm
    rw [subtrees] at hm ⊢
    rcases List.mem_cons.mp hm with h | h
    · subst h; exact fun x hx => hx
    · cases h
  · intro s m hm
    rw [subtrees] at hm ⊢
    rcases List.mem_cons.mp hm with h | h
    · subst h; exact fun x hx => hx
    · cases h
  · intro m hm; cases hm
  · intro n l ihn ihl m hm
    rw [subtreesList] at hm ⊢
    rcases List.mem_append.mp hm with h | h
    · exact fun x hx => List.mem_append_left _ (ihn m h hx)
    · exact fun x hx => List.mem_append_right _ (ihl m h hx)

theorem subtrees_trans {n m : Node} (h : m ∈ subtrees n) : subtrees m ⊆ subtrees n :=
  subtrees_trans_all.1 n m h

theorem subtrees_of_child {c : Node} {cs : List Node} (h : c ∈ cs) :
    subtrees c ⊆ subtreesList cs := by
  induction cs with
  | nil => cases h
  | cons x l ih =>
      rcases List.mem_cons.mp h with h | h
      · subst h; rw [subtreesList]; exact fun y hy => List.mem_append_left _ hy
      · rw [subtreesList]; exact fun y hy => List.mem_append_right _ (ih h hy)

theorem hasTableHeaders_eq_any :
    (∀ n, hasTableHeaders n = (subtrees n).any isHeaderElem) ∧
    (∀ l, hasTableHeadersList l = (subtreesList l).any isHeaderElem) := by
  refine node_ind _ _ ?_ ?_ ?_ ?_ ?_ ?_
  · intro cs ih; simp [hasTableHeaders, subtrees, ih, isHeaderElem]
  · intro t a cs ih; simp [hasTableHeaders, subtrees, ih, isHeaderElem]
  · intro s; simp [hasTableHeaders, subtrees, isHeaderElem]
  · intro s; simp [hasTableHeaders, subtrees, isHeaderElem]
  · simp [hasTableHeadersList, subtreesList]
  · intro n l ihn ihl; simp [hasTableHeadersList, subtreesList, ihn, ihl]

theorem hasTextContent_eq_any :
    (∀ n, hasTextContent n = (subtrees n).any textNonBlank) ∧
    (∀ l, hasTextContentList l = (subtreesList l).any textNonBlank) := by
  refine node_ind _ _ ?_ ?_ ?_ ?_ ?_ ?_
  · intro cs ih; simp [hasTextContent, subtrees, ih, textNonBlank]
  · intro t a cs ih; simp [hasTextContent, subtrees, ih, textNonBlank]
  · intro s; simp [hasTextContent, subtrees, textNonBlank]
  · intro s; simp [hasTextContent, subtrees, textNonBlank]
  · simp [hasTextContentList, subtreesList]
  · intro n l ihn ihl; simp [hasTextContentList, subtreesList, ihn, ihl]

theorem collectRowCellCounts_eq :
    (∀ n, collectRowCellCounts n = ((subtrees n).filter isTrElem).map countCellsInRow) ∧
    (∀ l, collectRowCellCountsList l = ((subtreesList l).filter isTrElem).map countCellsInRow) := by
  refine node_ind _ _ ?_ ?_ ?_ ?_ ?_ ?_
  · intro cs ih
    have hd : isTrElem (Node.doc cs) = false := rfl
    simp [collectRowCellCounts, subtrees, ih, hd]
  · intro t a cs ih
    by_cases h : isTrElem (Node.elem t a cs) = true
    · simp [collectRowCellCounts, subtrees, ih, h]
    · rw [Bool.not_eq_true] at h
      simp [collectRowCellCounts, subtrees, ih, h]
  · intro s; simp [collectRowCellCounts, subtrees, isTrElem]
  · intro s; simp [collectRowCellCounts, subtrees, isTrElem]
  · simp [collectRowCellCountsList, subtreesList]
  · intro n l ihn ihl
    simp [collectRowCellCountsList, subtreesList, ihn, ihl]

theorem countTableColumns_eq_max :
    (∀ n, countTableColumns n = maxList (collectRowCellCounts n)) ∧
    (∀ l, countTableColumnsList l = maxList (collectRowCellCountsList l)) := by
  refine node_ind _ _ ?_ ?_ ?_ ?_ ?_ ?_
  · intro cs ih
    have hd : isTrElem (Node.doc cs) = false := rfl
    simp [countTableColumns, collectRowCellCounts, ih, hd]
  · intro t a cs ih
    by_cases h : isTrElem (Node.elem t a cs) = true
    · simp [countTableColumns, collectRowCellCounts, ih, h, maxList_append, maxList_cons, maxList]
    · rw [Bool.not_eq_true] at h
      simp [countTableColumns, collectRowCellCounts, ih, h, maxList]
  · intro s; simp [countTableColumns, collectRowCellCounts, maxList]
  · intro s; simp [countTableColumns, collectRowCellCounts, maxList]
  · simp [countTableColumnsList, collectRowCellCountsList, maxList]
  · intro n l ihn ihl
    simp [countTableColumnsList, collectRowCellCountsList, ihn, ihl, maxList_append]

theorem countContentRows_eq :
    (∀ n, countContentRows n =
      ((subtrees n).filter isTrElem).countP fun r => (subtrees r).any textNonBlank) ∧
    (∀ l, countContentRowsList l =
      ((subtreesList l).filter isTrElem).countP fun r => (subtrees r).any textNonBlank) := by
  refine node_ind _ _ ?_ ?_ ?_ ?_ ?_ ?_
  · intro cs ih
    have hd : isTrElem (Node.doc cs) = false := rfl
    simp [countContentRows, subtrees, ih, hd]
  · intro t a cs ih
    by_cases h : isTrElem (Node.elem t a cs) = true
    · simp [countContentRows, subtrees, ih, h, List.countP_cons,
        hasTextContent_eq_any.1 (Node.elem t a cs), Nat.add_comm]
    · rw [Bool.not_eq_true] at h
      simp [countContentRows, subtrees, ih, h]
  · intro s; simp [countContentRows, subtrees, isTrElem]
  · intro s; simp [countContentRows, subtrees, isTrElem]
  · simp [countContentRowsList, subtreesList]
  · intro n l ihn ihl
    simp [countContentRowsList, subtreesList, ihn, ihl, List.countP_append]

theorem areAllCountsEqual_eq (l : List Nat) :
    areAllCountsEqual l =
      (decide (2 ≤ l.length) && l.all fun x => decide (x = l.headD 0)) := by
  match l with
  | [] => rfl
  | [x] => simp [areAllCountsEqual]
  | x :: y :: rest => simp [areAllCountsEqual]

/-- **C2**: for every table element, the unwrap decision is the first-match
rule chain, in order: (1) a `th`/`thead` anywhere in the subtree forbids
unwrapping; (2) a maximal per-`tr` `td`/`th` cell count above 1 forbids it;
(3) an `id` attribute equal to `"main"` or containing `"layout"` or
`"wrapper"` forces unwrapping; (4) more than 5 rows with non-whitespace text
(`"&nbsp;"` treated as blank) together with a cell-count list of length ≥ 2
whose entries are all equal forbids it; (5) otherwise unwrap.  The source
function `shouldUnwrapTable` equals this chain on every node. -/
theorem claim_C2_decision_chain (t : Node) : shouldUnwrapTable t = specShouldUnwrapTable t := by
  rw [shouldUnwrapTable, specShouldUnwrapTable, hasTableHeaders_eq_any.1,
    countTableColumns_eq_max.1, hasConsistentRowStructure, areAllCountsEqual_eq,
    collectRowCellCounts_eq.1, countContentRows_eq.1]
  rfl

/-! ## Lemmas about cloning, extraction and the simplification pass -/

theorem cloneNode_id : (∀ n, cloneNode n = n) ∧ (∀ l, cloneNodeList l = l) := by
  refine node_ind _ _ ?_ ?_ ?_ ?_ ?_ ?_
  · intro cs ih; simp [cloneNode, ih]
  · intro t a cs ih; simp [cloneNode, ih]
  · intro s; simp [cloneNode]
  · intro s; simp [cloneNode]
  · simp [cloneNodeList]
  · intro n l ihn ihl; simp [cloneNodeList, ihn, ihl]

theorem extract_acc :
    (∀ n, ∀ acc, extractTableContent n acc = acc ++ extractTableContent n []) ∧
    (∀ l, ∀ acc, extractTableContentList l acc = acc ++ extractTableContentList l []) := by
  refine node_ind _ _ ?_ ?_ ?_ ?_ ?_ ?_
  · intro cs _ acc; simp [extractTableContent]
  · intro t a cs ih acc
    by_cases ht : isTableElement t = true
    · by_cases htr : t = "tr"
      · rw [extractTableContent, extractTableContent]
        rw [if_pos ht, if_pos ht, if_pos htr, if_pos htr]
        rw [ih acc, ih []]
        simp only [List.nil_append, List.length_append, List.length_nil, Nat.zero_add]
        by_cases he : extractTableContentList cs [] = []
        · rw [he]; simp
        · have hlen : 0 < (extractTableContentList cs []).length := List.length_pos.mpr he
          rw [if_pos (Nat.lt_add_of_pos_right hlen), if_pos hlen]
          simp
      · rw [extractTableContent, extractTableContent]
        rw [if_pos ht, if_pos ht, if_neg htr, if_neg htr]
        exact ih acc
    · rw [Bool.not_eq_true] at ht
      simp [extractTableContent, ht]
  · intro s acc
    by_cases h : trimSpace s ≠ ""
    · simp [extractTableContent, h]
    · simp [extractTableContent, h]
  · intro s acc; simp [extractTableContent]
  · intro acc; simp [extractTableContentList]
  · intro n l ihn ihl acc
    rw [extractTableContentList, extractTableContentList, ihn acc, ihl, ihl (extractTableContent n [])]
    simp

theorem mem_subtreesList {m : Node} {l : List Node} :
    m ∈ subtreesList l ↔ ∃ c ∈ l, m ∈ subtrees c := by
  induction l with
  | nil => simp [subtreesList]
  | cons n t ih => simp [subtreesList, ih]

mutual

/-- No table element anywhere in the tree still satisfies
`shouldUnwrapTable`: the normal form that a simplification pass produces. -/
def fullySimplified : Node → Bool
  | .elem t a cs =>
      (if t = "table" then !shouldUnwrapTable (.elem t a cs) else true) &&
        fullySimplifiedList cs
  | .doc cs => fullySimplifiedList cs
  | .text _ => true
  | .comment _ => true

def fullySimplifiedList : List Node → Bool
  | [] => true
  | n :: l => fullySimplified n && fullySimplifiedList l

end

theorem fullySimplifiedList_iff {l : List Node} :
    fullySimplifiedList l = true ↔ ∀ m ∈ l, fullySimplified m = true := by
  induction l with
  | nil => simp [fullySimplifiedList]
  | cons n t ih => simp [fullySimplifiedList, ih]

theorem fullySimplified_subtrees :
    (∀ n, fullySimplified n = true → ∀ m ∈ subtrees n, fullySimplified m = true) ∧
    (∀ l, fullySimplifiedList l = true → ∀ m ∈ subtreesList l, fullySimplified m = true) := by
  refine node_ind _ _ ?_ ?_ ?_ ?_ ?_ ?_
  · intro cs ih h m hm
    rw [subtrees] at hm
    rcases List.mem_cons.mp hm with hm | hm
    · subst hm; exact h
    · exact ih (by simpa [fullySimplified] using h) m hm
  · intro t a cs ih h m hm
    rw [subtrees] at hm
    rcases List.mem_cons.mp hm with hm | hm
    · subst hm; exact h
    · rw [fullySimplified, Bool.and_eq_true] at h
      exact ih h.2 m hm
  · intro s _ m hm
    rw [subtrees] at hm
    rcases List.mem_cons.mp hm with hm | hm
    · subst hm; rfl
    · cases hm
  · intro s _ m hm
    rw [subtrees] at hm
    rcases List.mem_cons.mp hm with hm | hm
    · subst hm; rfl
    · cases hm
  · intro _ m hm; cases hm
  · intro n l ihn ihl h m hm
    rw [fullySimplifiedList, Bool.and_eq_true] at h
    rw [subtreesList] at hm
    rcases List.mem_append.mp hm with hm | hm
    · exact ihn h.1 m hm
    · exact ihl h.2 m hm

/-- An element node whose tag is not table-structural. -/
def isNonTableElem : Node → Bool
  | .elem t _ _ => !isTableElement t
  | _ => false

theorem extract_members :
    (∀ n, ∀ m ∈ extractTableContent n [],
      (∃ d, m = Node.text d) ∨ (m ∈ subtrees n ∧ isNonTableElem m = true)) ∧
    (∀ l, ∀ m ∈ extractTableContentList l [],
      (∃ d, m = Node.text d) ∨ (∃ c ∈ l, m ∈ subtrees c ∧ isNonTableElem m = true)) := by
  refine node_ind _ _ ?_ ?_ ?_ ?_ ?_ ?_
  · intro cs _ m hm; simp [extractTableContent] at hm
  · intro t a cs ih m hm
    by_cases ht : isTableElement t = true
    · have main : m ∈ extractTableContentList cs [] →
        (∃ d, m = Node.text d) ∨ (m ∈ subtrees (Node.elem t a cs) ∧ isNonTableElem m = true) := by
        intro hm2
        rcases ih m hm2 with h | ⟨c, hc, hmc, hnt⟩
        · exact Or.inl h
        · refine Or.inr ⟨?_, hnt⟩
          rw [subtrees]
          exact List.mem_cons_of_mem _ (subtrees_of_child hc hmc)
      by_cases htr : t = "tr"
      · rw [extractTableContent, if_pos ht, if_pos htr] at hm
        by_cases he : (List.nil (α := Node)).length < (extractTableContentList cs []).length
        · rw [if_pos he] at hm
          rcases List.mem_append.mp hm with hm2 | hm2
          · exact main hm2
          · exact Or.inl ⟨"\n", List.mem_singleton.mp hm2⟩
        · rw [if_neg he] at hm
          exact main hm
      · rw [extractTableContent, if_pos ht, if_neg htr] at hm
        exact main hm
    · rw [Bool.not_eq_true] at ht
      rw [extractTableContent] at hm
      rw [ht] at hm
      simp only [Bool.false_eq_true, if_false, List.nil_append] at hm
      rw [cloneNode_id.1] at hm
      refine Or.inr ⟨?_, ?_⟩
      · rw [List.mem_singleton.mp hm]; exact mem_subtrees_self _
      · rw [List.mem_singleton.mp hm, isNonTableElem, ht]; rfl
  · intro s m hm
    rw [extractTableContent] at hm
    by_cases h : trimSpace s ≠ ""
    · rw [if_pos h, List.nil_append] at hm
      exact Or.inl ⟨s, List.mem_singleton.mp hm⟩
    · rw [if_neg h] at hm; cases hm
  · intro s m hm; cases hm
  · intro m hm; cases hm
  · intro n l ihn ihl m hm
    rw [extractTableContentList, extract_acc.2 l (extractTableContent n [])] at hm
    rcases List.mem_append.mp hm with hm2 | hm2
    · rcases ihn m hm2 with h | ⟨hmem, hnt⟩
      · exact Or.inl h
      · exact Or.inr ⟨n, List.mem_cons_self n l, hmem, hnt⟩
    · rcases ihl m hm2 with h | ⟨c, hc, hmc, hnt⟩
      · exact Or.inl h
      · exact Or.inr ⟨c, List.mem_cons_of_mem _ hc, hmc, hnt⟩

theorem simplify_unchanged :
    (∀ n, (simplifyNode n).2 = false → (simplifyNode n).1 = [n]) ∧
    (∀ l, (simplifyList l).2 = false → (simplifyList l).1 = l) := by
  refine node_ind _ _ ?_ ?_ ?_ ?_ ?_ ?_
  · intro cs ih hc
    simp only [simplifyNode] at hc ⊢
    rw [ih hc]
  · intro t a cs ih hc
    by_cases h : t = "table" ∧ shouldUnwrapTable (Node.elem t a (simplifyList cs).1) = true
    · obtain ⟨ht, hsu⟩ := h
      subst ht
      simp [simplifyNode, hsu] at hc
    · simp only [simplifyNode, if_neg h] at hc ⊢
      rw [ih hc]
  · intro s _; simp [simplifyNode]
  · intro s _; simp [simplifyNode]
  · intro _; simp [simplifyList]
  · intro n l ihn ihl hc
    simp only [simplifyList, Bool.or_eq_false_iff] at hc ⊢
    rw [ihn hc.1, ihl hc.2]
    simp

theorem simplify_fullySimplified :
    (∀ n, ∀ m ∈ (simplifyNode n).1, fullySimplified m = true) ∧
    (∀ l, ∀ m ∈ (simplifyList l).1, fullySimplified m = true) := by
  refine node_ind _ _ ?_ ?_ ?_ ?_ ?_ ?_
  · intro cs ih m hm
    simp only [simplifyNode, List.mem_singleton] at hm
    subst hm
    exact fullySimplifiedList_iff.mpr ih
  · intro t a cs ih m hm
    by_cases h : t = "table" ∧ shouldUnwrapTable (Node.elem t a (simplifyList cs).1) = true
    · obtain ⟨ht, hsu⟩ := h
      subst ht
      simp only [simplifyNode, hsu, and_true, if_pos rfl] at hm
      rw [unwrapTable] at hm
      rcases extract_members.1 _ m hm with ⟨d, rfl⟩ | ⟨hmem, hnt⟩
      · rfl
      · rw [subtrees] at hmem
        rcases List.mem_cons.mp hmem with hm2 | hm2
        · rw [hm2] at hnt
          simp [isNonTableElem, isTableElement] at hnt
        · rcases mem_subtreesList.mp hm2 with ⟨c, hc, hmc⟩
          exact fullySimplified_subtrees.1 c (ih c hc) m hmc
    · simp only [simplifyNode, if_neg h, List.mem_singleton] at hm
      subst hm
      rw [fullySimplified, Bool.and_eq_true]
      refine ⟨?_, fullySimplifiedList_iff.mpr ih⟩
      by_cases ht : t = "table"
      · rw [if_pos ht, Bool.not_eq_true']
        by_contra hs
        rw [Bool.not_eq_false] at hs
        exact h ⟨ht, hs⟩
      · rw [if_neg ht]
  · intro s m hm
    simp only [simplifyNode, List.mem_singleton] at hm
    subst hm; rfl
  · intro s m hm
    simp only [simplifyNode, List.mem_singleton] at hm
    subst hm; rfl
  · intro m hm; simp [simplifyList] at hm
  · intro n l ihn ihl m hm
    simp only [simplifyList, List.mem_append] at hm
    rcases hm with hm | hm
    · exact ihn m hm
    · exact ihl m hm

theorem fullySimplified_noop :
    (∀ n, fullySimplified n = true → simplifyNode n = ([n], false)) ∧
    (∀ l, fullySimplifiedList l = true → simplifyList l = (l, false)) := by
  refine node_ind _ _ ?_ ?_ ?_ ?_ ?_ ?_
  · intro cs ih h
    rw [fullySimplified] at h
    simp [simplifyNode, ih h]
  · intro t a cs ih h
    rw [fullySimplified, Bool.and_eq_true] at h
    have hl := ih h.2
    rw [simplifyNode, hl]
    have hcond : ¬(t = "table" ∧ shouldUnwrapTable (Node.elem t a cs) = true) := by
      rintro ⟨ht, hsu⟩
      have := h.1
      rw [if_pos ht, Bool.not_eq_true'] at this
      rw [hsu] at this
      cases this
    rw [if_neg hcond]
  · intro s _; rfl
  · intro s _; rfl
  · intro _; rfl
  · intro n l ihn ihl h
    rw [fullySimplifiedList, Bool.and_eq_true] at h
    rw [simplifyList, ihn h.1, ihl h.2]
    simp

theorem simplifyRoot_elem_fst (t : String) (a : List (String × String)) (cs : List Node) :
    (simplifyRoot (.elem t a cs)).1 = .elem t a (simplifyList cs).1 := by
  by_cases h : t = "table" ∧ shouldUnwrapTable (Node.elem t a (simplifyList cs).1) = true
  · obtain ⟨ht, hsu⟩ := h
    subst ht
    simp [simplifyRoot, hsu]
  · simp only [simplifyRoot, if_neg h]

theorem simplifyRoot_stable (n : Node) :
    (simplifyRoot (simplifyRoot n).1).1 = (simplifyRoot n).1 := by
  cases n with
  | doc cs =>
      have hfs : fullySimplifiedList (simplifyList cs).1 = true :=
        fullySimplifiedList_iff.mpr (simplify_fullySimplified.2 cs)
      simp [simplifyRoot, fullySimplified_noop.2 _ hfs]
  | elem t a cs =>
      have hfs : fullySimplifiedList (simplifyList cs).1 = true :=
        fullySimplifiedList_iff.mpr (simplify_fullySimplified.2 cs)
      rw [simplifyRoot_elem_fst, simplifyRoot_elem_fst, fullySimplified_noop.2 _ hfs]
  | text s => rfl
  | comment s => rfl

theorem simplifyIter_fix {m : Node} (h : (simplifyRoot m).1 = m) :
    ∀ k, simplifyIter k m = m := by
  intro k
  induction k with
  | zero => rfl
  | succ k ih =>
      rw [simplifyIter]
      cases hr : (simplifyRoot m).2 <;> simp [hr, h, ih]

theorem simplifyIter_succ (n : Node) (k : Nat) :
    simplifyIter (k + 1) n = (simplifyRoot n).1 := by
  rw [simplifyIter]
  cases hr : (simplifyRoot n).2 <;>
    simp [hr, simplifyIter_fix (simplifyRoot_stable n) k]

theorem simplifyIter_idem (n : Node) :
    simplifyIter 10 (simplifyIter 10 n) = simplifyIter 10 n := by
  have h9 : (10 : Nat) = 9 + 1 := rfl
  rw [h9, simplifyIter_succ, simplifyIter_succ, simplifyRoot_stable]

/-! ## Claims C1 and C4: byte-level idempotence and fail-soft behavior -/

/-- **C1**: applying the unwrapper twice gives the same bytes as applying it
once, for every byte input, and for every parse/render pair satisfying the
round-trip contract of the external HTML library (parsing a rendered tree
yields that tree back). -/
theorem claim_C1_unwrap_idempotent (parse : List Nat → Option Node)
    (render : Node → Option (List Nat))
    (hRound : ∀ t b, render t = some b → parse b = some t) (D : List Nat) :
    UnwrapTableLayout parse render (UnwrapTableLayout parse render D) =
      UnwrapTableLayout parse render D := by
  cases hp : parse D with
  | none =>
      have hD : UnwrapTableLayout parse render D = D := by
        simp only [UnwrapTableLayout, hp]
      rw [hD]
      exact hD
  | some t =>
      cases hr : render (simplifyIter 10 t) with
      | none =>
          have hD : UnwrapTableLayout parse render D = D := by
            simp only [UnwrapTableLayout, hp, hr]
          rw [hD]
          exact hD
      | some b =>
          have hD : UnwrapTableLayout parse render D = b := by
            simp only [UnwrapTableLayout, hp, hr]
          rw [hD]
          have hpb : parse b = some (simplifyIter 10 t) := hRound _ _ hr
          simp only [UnwrapTableLayout, hpb, simplifyIter_idem, hr]

/-- Witness for C1 at a concrete parse/render pair satisfying the round-trip
hypothesis (every byte string parses to the empty document, which renders to
`[42]`), and concrete input bytes. -/
theorem claim_C1_witness :
    UnwrapTableLayout (fun _ => some (Node.doc []))
        (fun t => match t with | .doc [] => some [42] | _ => none)
        (UnwrapTableLayout (fun _ => some (Node.doc []))
          (fun t => match t with | .doc [] => some [42] | _ => none) [60, 104]) =
      UnwrapTableLayout (fun _ => some (Node.doc []))
        (fun t => match t with | .doc [] => some [42] | _ => none) [60, 104] :=
  claim_C1_unwrap_idempotent _ _
    (fun t b h => by
      cases t with
      | doc cs =>
          cases cs with
          | nil => rfl
          | cons c cs => cases h
      | elem t a cs => cases h
      | text d => cases h
      | comment d => cases h)
    [60, 104]

/-- **C4**: `UnwrapTableLayout` never fails: for every input either parsing
fails and the input bytes are returned unchanged, or rendering the final
tree fails and the original input bytes are returned, or it returns the
rendered bytes of the simplified tree. -/
theorem claim_C4_fail_soft (parse : List Nat → Option Node)
    (render : Node → Option (List Nat)) (input : List Nat) :
    (parse input = none ∧ UnwrapTableLayout parse render input = input) ∨
    (∃ t, parse input = some t ∧ render (simplifyIter 10 t) = none ∧
      UnwrapTableLayout parse render input = input) ∨
    (∃ t b, parse input = some t ∧ render (simplifyIter 10 t) = some b ∧
      UnwrapTableLayout parse render input = b) := by
  cases hp : parse input with
  | none =>
      exact Or.inl ⟨rfl, by simp only [UnwrapTableLayout, hp]⟩
  | some t =>
      cases hr : render (simplifyIter 10 t) with
      | none =>
          exact Or.inr (Or.inl ⟨t, rfl, hr, by simp only [UnwrapTableLayout, hp, hr]⟩)
      | some b =>
          exact Or.inr (Or.inr ⟨t, b, rfl, hr, by simp only [UnwrapTableLayout, hp, hr]⟩)

/-! ## Claim C9: newline insertion at row boundaries, and the end-to-end example -/

/-- Is this node a `table` element? -/
def isTableNode : Node → Bool
  | .elem t _ _ => decide (t = "table")
  | _ => false

/-- The spec's end-to-end example input, as parsed:
`<html><body><table id="main"><tbody><tr><td>Content line 1</td></tr><tr><td>Content line 2</td></tr></tbody></table></body></html>`. -/
def c9Input : Node :=
  .doc [.elem "html" [] [.elem "head" [] [], .elem "body" [] [
    .elem "table" [("id", "main")] [.elem "tbody" [] [
      .elem "tr" [] [.elem "td" [] [.text "Content line 1"]],
      .elem "tr" [] [.elem "td" [] [.text "Content line 2"]]]]]]]

/-- The expected output tree: the two content lines, each followed by a
newline text node, with the table gone. -/
def c9Expected : Node :=
  .doc [.elem "html" [] [.elem "head" [] [],
    .elem "body" [] [.text "Content line 1", .text "\n",
      .text "Content line 2", .text "\n"]]]

/-- **C9**: extraction of a `tr` yields its extracted content followed by
exactly one newline text node when the row contributed anything, and nothing
otherwise; and on the spec's end-to-end example the unwrapper produces
`Content line 1`, a newline, `Content line 2`, a newline, with no `table`
element left in the output. -/
theorem claim_C9_row_newlines :
    (∀ (a : List (String × String)) (cs : List Node),
      extractTableContent (Node.elem "tr" a cs) [] =
        (if extractTableContentList cs [] = [] then []
          else extractTableContentList cs [] ++ [Node.text "\n"])) ∧
    simplifyIter 10 c9Input = c9Expected ∧
    (subtrees (simplifyIter 10 c9Input)).any isTableNode = false := by
  refine ⟨?_, rfl, rfl⟩
  intro a cs
  have h1 : isTableElement "tr" = true := rfl
  by_cases he : extractTableContentList cs [] = []
  · rw [extractTableContent, if_pos h1, if_pos rfl, he]
    simp
  · rw [extractTableContent, if_pos h1, if_pos rfl, if_neg he,
      if_pos (show (List.nil (α := Node)).length < (extractTableContentList cs []).length by
        simpa using List.length_pos.mpr he)]

/-! ## Claim C8: whitespace-only tables -/

theorem nonTable_not_cell {m : Node} (h : isNonTableElem m = true) : isCellElem m = false := by
  cases m with
  | elem t a cs =>
      rw [isNonTableElem, Bool.not_eq_true'] at h
      rw [isTableElement, decide_eq_false_iff_not] at h
      rw [isCellElem, decide_eq_false_iff_not]
      rintro (rfl | rfl) <;> exact h (by tauto)
  | doc cs => rfl
  | text d => rfl
  | comment d => rfl

theorem countCellsInRow_children (t : String) (a : List (String × String)) (cs : List Node) :
    countCellsInRow (.elem t a cs) = cs.countP isCellElem := rfl

theorem cells_preserved :
    (∀ n, (simplifyNode n).1.countP isCellElem = (if isCellElem n = true then 1 else 0)) ∧
    (∀ l, (simplifyList l).1.countP isCellElem = l.countP isCellElem) := by
  refine node_ind _ _ ?_ ?_ ?_ ?_ ?_ ?_
  · intro cs _
    simp [simplifyNode, List.countP_cons, isCellElem]
  · intro t a cs ih
    by_cases h : t = "table" ∧ shouldUnwrapTable (Node.elem t a (simplifyList cs).1) = true
    · obtain ⟨ht, hsu⟩ := h
      subst ht
      simp only [simplifyNode, hsu, and_true, if_pos rfl, unwrapTable]
      rw [List.countP_eq_zero.mpr, if_neg]
      · rw [isCellElem]; simp
      · intro m hm
        rcases extract_members.1 _ m hm with ⟨d, rfl⟩ | ⟨_, hnt⟩
        · simp [isCellElem]
        · simp [nonTable_not_cell hnt]
    · simp only [simplifyNode, if_neg h]
      simp [List.countP_cons, isCellElem]
  · intro s; simp [simplifyNode, List.countP_cons, isCellElem]
  · intro s; simp [simplifyNode, List.countP_cons, isCellElem]
  · simp [simplifyList]
  · intro n l ihn ihl
    simp only [simplifyList, List.countP_append, ihn, ihl, List.countP_cons]
    omega

mutual

/-- A subtree that holds no real content: only table-structural elements
(none of them `th`/`thead`), whitespace-only text, and comments. -/
def blankContent : Node → Bool
  | .elem t _ cs =>
      isTableElement t && decide (t ≠ "th" ∧ t ≠ "thead") && blankContentList cs
  | .text d => decide (trimSpace d = "")
  | .comment _ => true
  | .doc _ => false

def blankContentList : List Node → Bool
  | [] => true
  | n :: l => blankContent n && blankContentList l

end

theorem blank_noHeaders :
    (∀ n, blankContent n = true → hasTableHeaders n = false) ∧
    (∀ l, blankContentList l = true → hasTableHeadersList l = false) := by
  refine node_ind _ _ ?_ ?_ ?_ ?_ ?_ ?_
  · intro cs _ h; cases h
  · intro t a cs ih h
    rw [blankContent, Bool.and_eq_true, Bool.and_eq_true] at h
    rw [hasTableHeaders, Bool.or_eq_false_iff]
    refine ⟨?_, ih h.2⟩
    rw [decide_eq_false_iff_not]
    have := of_decide_eq_true h.1.2
    tauto
  · intro s _; rfl
  · intro s _; rfl
  · intro _; rfl
  · intro n l ihn ihl h
    rw [blankContentList, Bool.and_eq_true] at h
    rw [hasTableHeadersList, Bool.or_eq_false_iff]
    exact ⟨ihn h.1, ihl h.2⟩

theorem blank_noText :
    (∀ n, blankContent n = true → hasTextContent n = false) ∧
    (∀ l, blankContentList l = true → hasTextContentList l = false) := by
  refine node_ind _ _ ?_ ?_ ?_ ?_ ?_ ?_
  · intro cs _ h; cases h
  · intro t a cs ih h
    rw [blankContent, Bool.and_eq_true] at h
    rw [hasTextContent]
    exact ih h.2
  · intro s h
    rw [blankContent] at h
    rw [hasTextContent, decide_eq_false_iff_not]
    intro hc
    exact hc.1 (of_decide_eq_true h)
  · intro s _; rfl
  · intro _; rfl
  · intro n l ihn ihl h
    rw [blankContentList, Bool.and_eq_true] at h
    rw [hasTextContentList, Bool.or_eq_false_iff]
    exact ⟨ihn h.1, ihl h.2⟩

theorem noText_noContentRows :
    (∀ n, hasTextContent n = false → countContentRows n = 0) ∧
    (∀ l, hasTextContentList l = false → countContentRowsList l = 0) := by
  refine node_ind _ _ ?_ ?_ ?_ ?_ ?_ ?_
  · intro cs ih h
    rw [hasTextContent] at h
    rw [countContentRows]
    exact ih h
  · intro t a cs ih h
    rw [hasTextContent] at h
    rw [countContentRows, ih h]
    have h2 : hasTextContent (Node.elem t a cs) = false := by
      rw [hasTextContent]; exact h
    rw [h2]
    simp
  · intro s _; rfl
  · intro s _; rfl
  · intro _; rfl
  · intro n l ihn ihl h
    rw [hasTextContentList, Bool.or_eq_false_iff] at h
    rw [countContentRowsList, ihn h.1, ihl h.2]

theorem blank_extract :
    (∀ n, blankContent n = true → extractTableContent n [] = []) ∧
    (∀ l, blankContentList l = true → extractTableContentList l [] = []) := by
  refine node_ind _ _ ?_ ?_ ?_ ?_ ?_ ?_
  · intro cs _ h; cases h
  · intro t a cs ih h
    rw [blankContent, Bool.and_eq_true, Bool.and_eq_true] at h
    rw [extractTableContent, if_pos h.1.1]
    by_cases htr : t = "tr"
    · rw [if_pos htr, ih h.2]
      simp
    · rw [if_neg htr]
      exact ih h.2
  · intro s h
    rw [blankContent] at h
    rw [extractTableContent, if_neg]
    rw [Ne, not_not]
    exact of_decide_eq_true h
  · intro s _; rfl
  · intro _; rfl
  · intro n l ihn ihl h
    rw [blankContentList, Bool.and_eq_true] at h
    rw [extractTableContentList, extract_acc.2, ihn h.1, ihl h.2]
    rfl

theorem blank_shouldUnwrap (a : List (String × String)) (cs : List Node)
    (hB : blankContentList cs = true) (hcols : countTableColumnsList cs ≤ 1) :
    shouldUnwrapTable (.elem "table" a cs) = true := by
  have hhd : hasTableHeaders (.elem "table" a cs) = false := by
    rw [hasTableHeaders, blank_noHeaders.2 cs hB]
    rfl
  have hct : ¬(1 < countTableColumns (.elem "table" a cs)) := by
    rw [countTableColumns]
    have : isTrElem (Node.elem "table" a cs) = false := rfl
    rw [this]
    simpa using hcols
  have hrows : countContentRows (.elem "table" a cs) = 0 := by
    apply noText_noContentRows.1
    rw [hasTextContent]
    exact blank_noText.2 cs hB
  rw [shouldUnwrapTable, hhd]
  simp only [Bool.false_eq_true, if_false]
  rw [if_neg hct]
  by_cases hid : idSuggestsLayout (.elem "table" a cs) = true
  · rw [if_pos hid]
  · rw [if_neg hid, if_neg]
    rw [hrows]
    rintro ⟨h5, _⟩
    omega

theorem blank_simplify :
    (∀ n, blankContent n = true → countTableColumns n ≤ 1 →
      (simplifyNode n).1 = [] ∨
        ∃ n', (simplifyNode n).1 = [n'] ∧ blankContent n' = true ∧
          countTableColumns n' ≤ countTableColumns n) ∧
    (∀ l, blankContentList l = true → countTableColumnsList l ≤ 1 →
      blankContentList (simplifyList l).1 = true ∧
        countTableColumnsList (simplifyList l).1 ≤ countTableColumnsList l) := by
  refine node_ind _ _ ?_ ?_ ?_ ?_ ?_ ?_
  · intro cs _ h; cases h
  · intro t a cs ih hB hcols
    rw [blankContent, Bool.and_eq_true, Bool.and_eq_true] at hB
    have hclist : countTableColumnsList cs ≤ 1 := by
      refine Nat.le_trans ?_ hcols
      rw [countTableColumns]
      exact Nat.le_max_right _ _
    obtain ⟨hBl, hcl⟩ := ih hB.2 hclist
    by_cases htable : t = "table"
    · subst htable
      have hsu : shouldUnwrapTable (Node.elem "table" a (simplifyList cs).1) = true :=
        blank_shouldUnwrap a _ hBl (Nat.le_trans hcl hclist)
      left
      have hext : extractTableContent (Node.elem "table" a (simplifyList cs).1) [] = [] := by
        rw [extractTableContent, if_pos (show isTableElement "table" = true from rfl),
          if_neg (show ¬("table" = "tr") by decide)]
        exact blank_extract.2 _ hBl
      simp [simplifyNode, hsu, unwrapTable, hext]
    · right
      have hcond : ¬(t = "table" ∧
          shouldUnwrapTable (Node.elem t a (simplifyList cs).1) = true) := by
        rintro ⟨h1, _⟩; exact htable h1
      refine ⟨Node.elem t a (simplifyList cs).1, ?_, ?_, ?_⟩
      · simp only [simplifyNode, if_neg hcond]
      · rw [blankContent, Bool.and_eq_true, Bool.and_eq_true]
        exact ⟨⟨hB.1.1, hB.1.2⟩, hBl⟩
      · rw [countTableColumns, countTableColumns]
        apply max_le_max _ hcl
        by_cases htr : isTrElem (Node.elem t a cs) = true
        · have htr2 : isTrElem (Node.elem t a (simplifyList cs).1) = true := htr
          rw [htr, htr2, countCellsInRow_children, countCellsInRow_children,
            cells_preserved.2]
        · rw [Bool.not_eq_true] at htr
          have htr2 : isTrElem (Node.elem t a (simplifyList cs).1) = false := htr
          simp [htr, htr2]
  · intro s hB _
    exact Or.inr ⟨.text s, rfl, hB, Nat.le_refl _⟩
  · intro s hB _
    exact Or.inr ⟨.comment s, rfl, hB, Nat.le_refl _⟩
  · intro _ _
    exact ⟨rfl, Nat.le_refl _⟩
  · intro n l ihn ihl hB hcols
    rw [blankContentList, Bool.and_eq_true] at hB
    rw [countTableColumnsList] at hcols
    have hcn : countTableColumns n ≤ 1 :=
      Nat.le_trans (Nat.le_max_left _ _) hcols
    have hcl : countTableColumnsList l ≤ 1 :=
      Nat.le_trans (Nat.le_max_right _ _) hcols
    obtain ⟨hBl, hcll⟩ := ihl hB.2 hcl
    rcases ihn hB.1 hcn with he | ⟨n', hn', hBn', hcn'⟩
    · constructor
      · simp only [simplifyList, he, List.nil_append]
        exact hBl
      · simp only [simplifyList, he, List.nil_append, countTableColumnsList]
        exact Nat.le_trans hcll (Nat.le_max_right _ _)
    · constructor
      · simp only [simplifyList, hn', List.singleton_append, blankContentList,
          Bool.and_eq_true]
        exact ⟨hBn', hBl⟩
      · simp only [simplifyList, hn', List.singleton_append, countTableColumnsList]
        exact max_le_max hcn' hcll

/-- The table whose single cell holds the literal text `"&nbsp;"`. -/
def nbspTable : Node :=
  .elem "table" [] [.elem "tr" [] [.elem "td" [] [.text "&nbsp;"]]]

/-- **C8 counterexample**: a table whose only cell content is the literal
`"&nbsp;"` placeholder is unwrapped, but extraction keeps the `"&nbsp;"`
text node (only pure-whitespace text is dropped), so replacement nodes are
inserted: the content list is not empty, contradicting the claim. -/
theorem claim_C8_counterexample :
    shouldUnwrapTable nbspTable = true ∧
    simplifyNode nbspTable = ([Node.text "&nbsp;", Node.text "\n"], true) ∧
    ([Node.text "&nbsp;", Node.text "\n"] : List Node) ≠ [] := by
  refine ⟨by decide, by decide, by simp⟩

/-- **C8 amended**: a single-column table (no `th`/`thead`, at most one cell
in any row) whose subtree consists only of table-structural elements,
whitespace-only text and comments unwraps to an empty content list: the
table's replacement in its parent's child list is `[]`, so it is removed and
nothing is inserted. -/
theorem claim_C8_amended (a : List (String × String)) (cs : List Node)
    (hB : blankContent (.elem "table" a cs) = true)
    (hcols : countTableColumns (.elem "table" a cs) ≤ 1) :
    simplifyNode (.elem "table" a cs) = ([], true) := by
  rw [blankContent, Bool.and_eq_true, Bool.and_eq_true] at hB
  have hclist : countTableColumnsList cs ≤ 1 := by
    refine Nat.le_trans ?_ hcols
    rw [countTableColumns]
    exact Nat.le_max_right _ _
  obtain ⟨hBl, hcl⟩ := blank_simplify.2 cs hB.2 hclist
  have hsu : shouldUnwrapTable (Node.elem "table" a (simplifyList cs).1) = true :=
    blank_shouldUnwrap a _ hBl (Nat.le_trans hcl hclist)
  have hext : extractTableContent (Node.elem "table" a (simplifyList cs).1) [] = [] := by
    rw [extractTableContent, if_pos (show isTableElement "table" = true from rfl),
      if_neg (show ¬("table" = "tr") by decide)]
    exact blank_extract.2 _ hBl
  simp [simplifyNode, hsu, unwrapTable, hext]

/-- Witness for the amended C8 at a concrete whitespace-only table. -/
theorem claim_C8_witness :
    blankContent (.elem "table" [] [.elem "tr" [] [.elem "td" [] [.text "  "]]]) = true ∧
    countTableColumns (.elem "table" [] [.elem "tr" [] [.elem "td" [] [.text "  "]]]) ≤ 1 ∧
    simplifyNode (.elem "table" [] [.elem "tr" [] [.elem "td" [] [.text "  "]]]) = ([], true) :=
  ⟨by decide, by decide,
    claim_C8_amended [] [.elem "tr" [] [.elem "td" [] [.text "  "]]] (by decide) (by decide)⟩

/-! ## Claim C3: data tables are never removed -/

/-- A data table in the spec's sense: a `table` element containing a
`th`/`thead`, or with at least 2 cells in some row. -/
def isDataTable : Node → Bool
  | .elem t a cs =>
      decide (t = "table") &&
        (hasTableHeaders (.elem t a cs) || decide (1 < countTableColumns (.elem t a cs)))
  | _ => false

theorem hasTableHeadersList_append (a b : List Node) :
    hasTableHeadersList (a ++ b) = (hasTableHeadersList a || hasTableHeadersList b) := by
  induction a with
  | nil => simp [hasTableHeadersList]
  | cons n l ih => simp [hasTableHeadersList, ih, Bool.or_assoc]

theorem countTableColumnsList_append (a b : List Node) :
    countTableColumnsList (a ++ b) = max (countTableColumnsList a) (countTableColumnsList b) := by
  induction a with
  | nil => simp [countTableColumnsList]
  | cons n l ih => simp [countTableColumnsList, ih, Nat.max_assoc]

theorem shouldUnwrap_false_of_headers {x : Node} (h : hasTableHeaders x = true) :
    shouldUnwrapTable x = false := by
  rw [shouldUnwrapTable, if_pos h]

theorem shouldUnwrap_false_of_multicol {x : Node} (h : 1 < countTableColumns x) :
    shouldUnwrapTable x = false := by
  rw [shouldUnwrapTable]
  by_cases hh : hasTableHeaders x = true
  · rw [if_pos hh]
  · rw [if_neg hh, if_pos h]

theorem hasTableHeaders_mono {m x : Node} (hm : m ∈ subtrees x)
    (h : hasTableHeaders m = true) : hasTableHeaders x = true := by
  rw [hasTableHeaders_eq_any.1] at h ⊢
  rcases List.any_eq_true.mp h with ⟨y, hy, hp⟩
  exact List.any_eq_true.mpr ⟨y, subtrees_trans hm hy, hp⟩

theorem countTableColumns_mono {m x : Node} (hm : m ∈ subtrees x) :
    countTableColumns m ≤ countTableColumns x := by
  rw [countTableColumns_eq_max.1, countTableColumns_eq_max.1,
    collectRowCellCounts_eq.1, collectRowCellCounts_eq.1]
  apply maxList_le
  intro v hv
  apply le_maxList_of_mem
  rcases List.mem_map.mp hv with ⟨r, hr, rfl⟩
  exact List.mem_map_of_mem _
    (List.mem_filter.mpr ⟨subtrees_trans hm (List.mem_filter.mp hr).1,
      (List.mem_filter.mp hr).2⟩)

theorem headers_survive :
    (∀ n, hasTableHeaders n = true → hasTableHeadersList (simplifyNode n).1 = true) ∧
    (∀ l, hasTableHeadersList l = true → hasTableHeadersList (simplifyList l).1 = true) := by
  refine node_ind _ _ ?_ ?_ ?_ ?_ ?_ ?_
  · intro cs ih h
    rw [hasTableHeaders] at h
    simp only [simplifyNode]
    rw [hasTableHeadersList, hasTableHeadersList, hasTableHeaders, ih h]
    rfl
  · intro t a cs ih h
    rw [hasTableHeaders, Bool.or_eq_true] at h
    have hkeep : hasTableHeaders (Node.elem t a (simplifyList cs).1) = true := by
      rw [hasTableHeaders, Bool.or_eq_true]
      rcases h with h | h
      · exact Or.inl h
      · exact Or.inr (ih h)
    have hcond : ¬(t = "table" ∧
        shouldUnwrapTable (Node.elem t a (simplifyList cs).1) = true) := by
      rintro ⟨_, h2⟩
      rw [shouldUnwrap_false_of_headers hkeep] at h2
      cases h2
    simp only [simplifyNode, if_neg hcond]
    rw [hasTableHeadersList, hasTableHeadersList, hkeep]
    rfl
  · intro s h; cases h
  · intro s h; cases h
  · intro h; cases h
  · intro n l ihn ihl h
    rw [hasTableHeadersList, Bool.or_eq_true] at h
    simp only [simplifyList]
    rw [hasTableHeadersList_append, Bool.or_eq_true]
    rcases h with h | h
    · exact Or.inl (ihn h)
    · exact Or.inr (ihl h)

theorem multicol_survive :
    (∀ n, 1 < countTableColumns n → 1 < countTableColumnsList (simplifyNode n).1) ∧
    (∀ l, 1 < countTableColumnsList l → 1 < countTableColumnsList (simplifyList l).1) := by
  refine node_ind _ _ ?_ ?_ ?_ ?_ ?_ ?_
  · intro cs ih h
    rw [countTableColumns] at h
    simp only [simplifyNode]
    rw [countTableColumnsList, countTableColumnsList, countTableColumns]
    exact lt_max_of_lt_left (ih h)
  · intro t a cs ih h
    rw [countTableColumns, lt_max_iff] at h
    have hkeep : 1 < countTableColumns (Node.elem t a (simplifyList cs).1) := by
      rw [countTableColumns, lt_max_iff]
      rcases h with h | h
      · left
        by_cases htr : isTrElem (Node.elem t a cs) = true
        · have htr2 : isTrElem (Node.elem t a (simplifyList cs).1) = true := htr
          rw [if_pos htr2]
          rw [if_pos htr] at h
          rw [countCellsInRow_children, cells_preserved.2]
          exact h
        · rw [Bool.not_eq_true] at htr
          rw [htr] at h
          simp at h
      · exact Or.inr (ih h)
    have hcond : ¬(t = "table" ∧
        shouldUnwrapTable (Node.elem t a (simplifyList cs).1) = true) := by
      rintro ⟨_, h2⟩
      rw [shouldUnwrap_false_of_multicol hkeep] at h2
      cases h2
    simp only [simplifyNode, if_neg hcond]
    rw [countTableColumnsList, countTableColumnsList]
    exact lt_max_of_lt_left hkeep
  · intro s h; simp [countTableColumns] at h
  · intro s h; simp [countTableColumns] at h
  · intro h; simp [countTableColumnsList] at h
  · intro n l ihn ihl h
    rw [countTableColumnsList, lt_max_iff] at h
    simp only [simplifyList]
    rw [countTableColumnsList_append, lt_max_iff]
    rcases h with h | h
    · exact Or.inl (ihn h)
    · exact Or.inr (ihl h)

theorem isDataTable_parts {x : Node} (h : isDataTable x = true) :
    hasTableHeaders x = true ∨ 1 < countTableColumns x := by
  cases x with
  | elem t a cs =>
      rw [isDataTable, Bool.and_eq_true, Bool.or_eq_true] at h
      rcases h.2 with hh | hc
      · exact Or.inl hh
      · exact Or.inr (of_decide_eq_true hc)
  | doc cs => cases h
  | text s => cases h
  | comment s => cases h

theorem dataTable_step {d : Node} (h : isDataTable d = true) :
    (simplifyNode d).1 = [(simplifyRoot d).1] ∧
      isDataTable ((simplifyRoot d).1) = true := by
  cases d with
  | elem t a cs =>
      rw [isDataTable, Bool.and_eq_true] at h
      obtain ⟨ht, hdata⟩ := h
      have ht' : t = "table" := of_decide_eq_true ht
      subst ht'
      have hd' : hasTableHeaders (Node.elem "table" a (simplifyList cs).1) = true ∨
          1 < countTableColumns (Node.elem "table" a (simplifyList cs).1) := by
        rw [Bool.or_eq_true] at hdata
        rcases hdata with hh | hc
        · left
          rw [hasTableHeaders] at hh
          rw [hasTableHeaders]
          simp only [Bool.or_eq_true] at hh ⊢
          rcases hh with hh | hh
          · exact Or.inl hh
          · exact Or.inr (headers_survive.2 cs hh)
        · right
          have hc' := of_decide_eq_true hc
          rw [countTableColumns] at hc'
          have htr : isTrElem (Node.elem "table" a cs) = false := rfl
          rw [htr] at hc'
          simp only [Bool.false_eq_true, if_false] at hc'
          rw [lt_max_iff] at hc'
          have hlist : 1 < countTableColumnsList cs := by
            rcases hc' with h0 | h0
            · omega
            · exact h0
          rw [countTableColumns]
          exact lt_max_of_lt_right (multicol_survive.2 cs hlist)
      have hsu : shouldUnwrapTable (Node.elem "table" a (simplifyList cs).1) = false := by
        rcases hd' with hh | hc
        · exact shouldUnwrap_false_of_headers hh
        · exact shouldUnwrap_false_of_multicol hc
      have hcond : ¬("table" = "table" ∧
          shouldUnwrapTable (Node.elem "table" a (simplifyList cs).1) = true) := by
        rintro ⟨_, h2⟩
        rw [hsu] at h2
        cases h2
      constructor
      · rw [simplifyRoot_elem_fst]
        simp [simplifyNode, hsu]
      · rw [simplifyRoot_elem_fst, isDataTable, Bool.and_eq_true]
        refine ⟨by decide, ?_⟩
        rw [Bool.or_eq_true]
        rcases hd' with hh | hc
        · exact Or.inl hh
        · exact Or.inr (decide_eq_true hc)
  | doc cs => cases h
  | text s => cases h
  | comment s => cases h

theorem dataTables_present :
    (∀ n, ∀ d ∈ subtrees n, isDataTable d = true →
      ∃ m ∈ (simplifyNode n).1, (simplifyRoot d).1 ∈ subtrees m) ∧
    (∀ l, ∀ d ∈ subtreesList l, isDataTable d = true →
      ∃ m ∈ (simplifyList l).1, (simplifyRoot d).1 ∈ subtrees m) := by
  refine node_ind _ _ ?_ ?_ ?_ ?_ ?_ ?_
  · intro cs ih d hd hdt
    rw [subtrees] at hd
    rcases List.mem_cons.mp hd with hd | hd
    · cases (hd ▸ hdt : isDataTable (Node.doc cs) = true)
    · rcases ih d hd hdt with ⟨m, hm, hsub⟩
      refine ⟨Node.doc (simplifyList cs).1, ?_, ?_⟩
      · simp [simplifyNode]
      · rw [subtrees]
        exact List.mem_cons_of_mem _ (mem_subtreesList.mpr ⟨m, hm, hsub⟩)
  · intro t a cs ih d hd hdt
    rw [subtrees] at hd
    rcases List.mem_cons.mp hd with hd | hd
    · subst hd
      refine ⟨(simplifyRoot (Node.elem t a cs)).1, ?_, mem_subtrees_self _⟩
      rw [(dataTable_step hdt).1]
      exact List.mem_singleton.mpr rfl
    · rcases ih d hd hdt with ⟨m, hm, hsub⟩
      have hmem' : (simplifyRoot d).1 ∈ subtrees (Node.elem t a (simplifyList cs).1) := by
        rw [subtrees]
        exact List.mem_cons_of_mem _ (mem_subtreesList.mpr ⟨m, hm, hsub⟩)
      by_cases hcond : t = "table" ∧
          shouldUnwrapTable (Node.elem t a (simplifyList cs).1) = true
      · exfalso
        have hsu : shouldUnwrapTable (Node.elem t a (simplifyList cs).1) = false := by
          rcases isDataTable_parts (dataTable_step hdt).2 with hh | hc
          · exact shouldUnwrap_false_of_headers (hasTableHeaders_mono hmem' hh)
          · exact shouldUnwrap_false_of_multicol
              (Nat.lt_of_lt_of_le hc (countTableColumns_mono hmem'))
        rw [hsu] at hcond
        exact absurd hcond.2 (by simp)
      · refine ⟨Node.elem t a (simplifyList cs).1, ?_, hmem'⟩
        simp [simplifyNode, if_neg hcond]
  · intro s d hd hdt
    rw [subtrees] at hd
    rcases List.mem_cons.mp hd with hd | hd
    · cases (hd ▸ hdt : isDataTable (Node.text s) = true)
    · cases hd
  · intro s d hd hdt
    rw [subtrees] at hd
    rcases List.mem_cons.mp hd with hd | hd
    · cases (hd ▸ hdt : isDataTable (Node.comment s) = true)
    · cases hd
  · intro d hd _; cases hd
  · intro n l ihn ihl d hd hdt
    rw [subtreesList] at hd
    rcases List.mem_append.mp hd with hd | hd
    · rcases ihn d hd hdt with ⟨m, hm, hsub⟩
      exact ⟨m, by simp only [simplifyList]; exact List.mem_append_left _ hm, hsub⟩
    · rcases ihl d hd hdt with ⟨m, hm, hsub⟩
      exact ⟨m, by simp only [simplifyList]; exact List.mem_append_right _ hm, hsub⟩

/-- **C3**: every data table (a table containing a `th`/`thead`, or with at
least 2 `td`/`th` cells in some row) occurring anywhere in the input — also
nested inside tables that get unwrapped — is still present in the
unwrapper's output as a table subtree (its own content simplified in place),
and it is still a data table there. -/
theorem claim_C3_data_tables_preserved (n d : Node) (hmem : d ∈ subtrees n)
    (hd : isDataTable d = true) :
    (simplifyRoot d).1 ∈ subtrees (simplifyIter 10 n) ∧
      isDataTable ((simplifyRoot d).1) = true := by
  refine ⟨?_, (dataTable_step hd).2⟩
  have h10 : simplifyIter 10 n = (simplifyRoot n).1 := simplifyIter_succ n 9
  rw [h10]
  cases n with
  | doc cs =>
      rw [subtrees] at hmem
      rcases List.mem_cons.mp hmem with hmem | hmem
      · cases (hmem ▸ hd : isDataTable (Node.doc cs) = true)
      · rcases dataTables_present.2 cs d hmem hd with ⟨m, hm, hsub⟩
        rw [simplifyRoot]
        rw [subtrees]
        exact List.mem_cons_of_mem _ (mem_subtreesList.mpr ⟨m, hm, hsub⟩)
  | elem t a cs =>
      rw [simplifyRoot_elem_fst]
      rw [subtrees] at hmem
      rcases List.mem_cons.mp hmem with hmem | hmem
      · subst hmem
        rw [simplifyRoot_elem_fst]
        exact mem_subtrees_self _
      · rcases dataTables_present.2 cs d hmem hd with ⟨m, hm, hsub⟩
        rw [subtrees]
        exact List.mem_cons_of_mem _ (mem_subtreesList.mpr ⟨m, hm, hsub⟩)
  | text s =>
      rw [subtrees] at hmem
      rcases List.mem_cons.mp hmem with hmem | hmem
      · cases (hmem ▸ hd : isDataTable (Node.text s) = true)
      · cases hmem
  | comment s =>
      rw [subtrees] at hmem
      rcases List.mem_cons.mp hmem with hmem | hmem
      · cases (hmem ▸ hd : isDataTable (Node.comment s) = true)
      · cases hmem

/-- Witness for C3: a `th`-bearing table nested inside a `div`, inside a
document, survives the unwrapper. -/
theorem claim_C3_witness :
    ((Node.elem "table" [] [.elem "tr" [] [.elem "th" [] [.text "H"]]]) ∈
        subtrees (Node.doc [.elem "div" []
          [.elem "table" [] [.elem "tr" [] [.elem "th" [] [.text "H"]]]]]) ∧
      isDataTable (Node.elem "table" [] [.elem "tr" [] [.elem "th" [] [.text "H"]]]) = true) ∧
    ((simplifyRoot (Node.elem "table" [] [.elem "tr" [] [.elem "th" [] [.text "H"]]])).1 ∈
        subtrees (simplifyIter 10 (Node.doc [.elem "div" []
          [.elem "table" [] [.elem "tr" [] [.elem "th" [] [.text "H"]]]]])) ∧
      isDataTable ((simplifyRoot (Node.elem "table" []
        [.elem "tr" [] [.elem "th" [] [.text "H"]]])).1) = true) :=
  ⟨⟨by decide, by decide⟩,
    claim_C3_data_tables_preserved _ _ (by decide) (by decide)⟩

/-! ## The `tool` package (src/internal/tool): MIME part model and base64 -/

/-- `gmail.MessagePartBody`: attachment reference id, size, and body data
(the base64 text, as raw bytes). -/
structure MessagePartBody where
  attachmentId : String
  size : Int
  data : List Nat
deriving DecidableEq

/-- `gmail.MessagePart`: tree-position id, filename, MIME type, optional
body, and sub-parts. -/
inductive MessagePart where
  | mk (partId : String) (filename : String) (mimeType : String)
      (body : Option MessagePartBody) (parts : List MessagePart)

def MessagePart.partId : MessagePart → String
  | .mk p _ _ _ _ => p

def MessagePart.filename : MessagePart → String
  | .mk _ f _ _ _ => f

def MessagePart.mimeType : MessagePart → String
  | .mk _ _ m _ _ => m

def MessagePart.body : MessagePart → Option MessagePartBody
  | .mk _ _ _ b _ => b

def MessagePart.parts : MessagePart → List MessagePart
  | .mk _ _ _ _ ps => ps

/-- Mutual induction principle for `MessagePart` and `List MessagePart`. -/
theorem part_ind (P : MessagePart → Prop) (Q : List MessagePart → Prop)
    (hmk : ∀ pid fn mt body parts, Q parts → P (.mk pid fn mt body parts))
    (hnil : Q [])
    (hcons : ∀ p l, P p → Q l → Q (p :: l)) :
    (∀ p, P p) ∧ (∀ l, Q l) :=
  have hP : ∀ p, P p := fun p => MessagePart.rec hmk hnil hcons p
  ⟨hP, fun l => List.rec hnil (fun p t ih => hcons p t (hP p) ih) l⟩

/-- Value of one base64url alphabet byte (`A-Z a-z 0-9 - _`). -/
def b64Val (c : Nat) : Option Nat :=
  if 65 ≤ c ∧ c ≤ 90 then some (c - 65)
  else if 97 ≤ c ∧ c ≤ 122 then some (c - 71)
  else if 48 ≤ c ∧ c ≤ 57 then some (c + 4)
  else if c = 45 then some 62
  else if c = 95 then some 63
  else none

/-- Go `encoding/base64` URL-safe decoding over 4-byte quanta.  With
`padded = true` this is `base64.URLEncoding.DecodeString` (length must be a
multiple of 4, `=` only as final padding); with `padded = false` it is
`base64.RawURLEncoding.DecodeString` (no `=`, a final quantum of 2 or 3
bytes allowed, length ≡ 1 mod 4 rejected).  Like Go's default decoders,
non-zero trailing bits are ignored. -/
def decodeB64Groups (padded : Bool) : List Nat → Option (List Nat)
  | [] => some []
  | a :: b :: c :: d :: rest =>
      match b64Val a, b64Val b with
      | some va, some vb =>
          if padded ∧ c = 61 then
            if d = 61 ∧ rest = [] then some [va * 4 + vb / 16] else none
          else
            match b64Val c with
            | some vc =>
                if padded ∧ d = 61 then
                  if rest = [] then some [va * 4 + vb / 16, (vb % 16) * 16 + vc / 4]
                  else none
                else
                  match b64Val d with
                  | some vd =>
                      match decodeB64Groups padded rest with
                      | some tail =>
                          some ([va * 4 + vb / 16, (vb % 16) * 16 + vc / 4,
                            (vc % 4) * 64 + vd] ++ tail)
                      | none => none
                  | none => none
            | none => none
      | _, _ => none
  | [a, b] =>
      if padded then none
      else
        match b64Val a, b64Val b with
        | some va, some vb => some [va * 4 + vb / 16]
        | _, _ => none
  | [a, b, c] =>
      if padded then none
      else
        match b64Val a, b64Val b, b64Val c with
        | some va, some vb, some vc =>
            some [va * 4 + vb / 16, (vb % 16) * 16 + vc / 4]
        | _, _, _ => none
  | [_] => none

/-- One of Go's two URL-safe base64 decoders (`\r` and `\n` are ignored
anywhere in the input, as in `encoding/base64`). -/
def decodeB64 (padded : Bool) (s : List Nat) : Option (List Nat) :=
  decodeB64Groups padded (s.filter fun c => decide (c ≠ 13 ∧ c ≠ 10))

/-- Go `decodeBase64URL` (get_messages.go): try padded URL-safe base64,
fall back to unpadded; if both fail return the input unchanged. -/
def decodeBase64URL (data : List Nat) : List Nat :=
  match decodeB64 true data with
  | some decoded => decoded
  | none =>
      match decodeB64 false data with
      | some decoded => decoded
      | none => data

/-- Go `extractBodyFromPart`: empty unless the part has body data; a
`text/plain` part yields a text body, a `text/html` part an HTML body. -/
def extractBodyFromPart (part : MessagePart) : List Nat × List Nat :=
  match part.body with
  | none => ([], [])
  | some b =>
      if b.data = [] then ([], [])
      else if part.mimeType = "text/plain" then (decodeBase64URL b.data, [])
      else if part.mimeType = "text/html" then ([], decodeBase64URL b.data)
      else ([], [])

/-- First-found-wins accumulation, as in Go's
`if textBody == "" { textBody = partText }`: keep `a` unless it is empty. -/
def keepFirst (a b : List Nat) : List Nat :=
  if a = [] then b else a

mutual

/-- Go `extractMessageBodies`: the root part is checked first, then each
direct child in order; a child carrying sub-parts is recursed into before
the next sibling is examined; earlier findings win. -/
def extractMessageBodies : MessagePart → List Nat × List Nat
  | .mk pid fn mt body parts =>
      bodiesLoop parts (extractBodyFromPart (.mk pid fn mt body parts)).1
        (extractBodyFromPart (.mk pid fn mt body parts)).2

def bodiesLoop : List MessagePart → List Nat → List Nat → List Nat × List Nat
  | [], textBody, htmlBody => (textBody, htmlBody)
  | part :: rest, textBody, htmlBody =>
      bodiesLoop rest
        (if part.parts.isEmpty = false then
          keepFirst (keepFirst textBody (extractBodyFromPart part).1)
            (extractMessageBodies part).1
        else keepFirst textBody (extractBodyFromPart part).1)
        (if part.parts.isEmpty = false then
          keepFirst (keepFirst htmlBody (extractBodyFromPart part).2)
            (extractMessageBodies part).2
        else keepFirst htmlBody (extractBodyFromPart part).2)

end

/-- Go `GetMessages.previewText`, with the external HTML-to-Markdown
converter as a parameter: a non-empty text body is returned verbatim;
otherwise an empty result for no HTML, else the converted HTML. -/
def previewText (conv : List Nat → Except String (List Nat))
    (textBody htmlBody : List Nat) : Except String (List Nat) :=
  if textBody ≠ [] then .ok textBody
  else if htmlBody = [] then .ok []
  else
    match conv htmlBody with
    | .error e => .error ("conv.HTML2MD failed: " ++ e)
    | .ok converted => .ok converted

/-- `tool.Attachment`: the descriptor returned by message fetch. -/
structure Attachment where
  id : String
  filename : String
  mimeType : String
  size : Int
deriving DecidableEq

mutual

/-- Go `extractAttachments`: the root part's own body is checked first
(descriptor id = `Body.AttachmentId`), then each child (descriptor id =
`PartId`), recursing into children that have sub-parts. -/
def extractAttachments : MessagePart → List Attachment
  | .mk _ fn mt body parts =>
      (match body with
        | some b =>
            if b.attachmentId ≠ "" then [⟨b.attachmentId, fn, mt, b.size⟩] else []
        | none => []) ++ attachmentsLoop parts

def attachmentsLoop : List MessagePart → List Attachment
  | [] => []
  | part :: rest =>
      (match part.body with
        | some b =>
            if b.attachmentId ≠ "" then
              [⟨part.partId, part.filename, part.mimeType, b.size⟩]
            else []
        | none => []) ++
      (if part.parts.isEmpty = false then extractAttachments part else []) ++
      attachmentsLoop rest

end

mutual

/-- Go `findAttachmentMetadata`: the first part in preorder with a non-nil
body and the requested part id; `none` models the Go `nil` result. -/
def findAttachmentMetadata : MessagePart → String → Option MessagePart
  | .mk pid fn mt body parts, partID =>
      if body.isSome = true ∧ pid = partID then some (.mk pid fn mt body parts)
      else findLoop parts partID

def findLoop : List MessagePart → String → Option MessagePart
  | [], _ => none
  | part :: rest, partID =>
      match findAttachmentMetadata part partID with
      | some found => some found
      | none => findLoop rest partID

end

/-- Go `strings.HasPrefix s pre`. -/
def goHasPrefix (s pre : String) : Bool :=
  decide (pre.toList <+: s.toList)

/-- Go `strings.HasSuffix s suf`. -/
def goHasSuffix (s suf : String) : Bool :=
  decide (suf.toList <:+ s.toList)

/-- The MIME/extension dispatch at the end of Go
`extractAttachmentContent`, with the external PDF converter as a
parameter. -/
def attachmentSwitch (conv : List Nat → Except String (List Nat))
    (decodedData : List Nat) (mimeType filename : String) :
    Except String (List Nat) :=
  if goHasPrefix mimeType "text/" then .ok decodedData
  else if mimeType = "application/pdf" then conv decodedData
  else if goHasSuffix filename ".txt" ∨ goHasSuffix filename ".md" then .ok decodedData
  else if goHasSuffix filename ".csv" then .ok decodedData
  else .error ("unsupported file type: " ++ mimeType)

/-- Go `PreviewAttachments.extractAttachmentContent`: padded base64 first,
unpadded on failure; a double failure is a hard error for this item. -/
def extractAttachmentContent (conv : List Nat → Except String (List Nat))
    (data : List Nat) (mimeType filename : String) : Except String (List Nat) :=
  match decodeB64 true data with
  | some decoded => attachmentSwitch conv decoded mimeType filename
  | none =>
      match decodeB64 false data with
      | some decoded => attachmentSwitch conv decoded mimeType filename
      | none => .error "failed to decode attachment"

/-- `tool.AttachmentPreview`: either extracted content or a per-item error
string. -/
structure AttachmentPreview where
  id : String
  filename : String
  mimeType : String
  content : List Nat
  error : String
deriving DecidableEq

/-- `gmail.Message` as used by `PreviewAttachments`: just the optional
payload tree. -/
structure GmailMessage where
  payload : Option MessagePart

/-- Outcome of a `PreviewAttachments` call: a Go runtime panic (nil-pointer
dereference), an error return, or a normal response. -/
inductive CallOutcome where
  | panic
  | fail (msg : String)
  | ok (previews : List AttachmentPreview)
deriving DecidableEq

/-- The per-attachment loop of Go `PreviewAttachments`.  When
`findAttachmentMetadata` returns `nil`, the next statement `content.Body`
dereferences a nil pointer: modelled as `.panic`. -/
def previewLoop (getAttachment : String → String → Except String (List Nat))
    (conv : List Nat → Except String (List Nat)) (msgID : String)
    (payload : Option MessagePart) :
    List String → List AttachmentPreview → CallOutcome
  | [], acc => .ok acc
  | partID :: rest, acc =>
      match payload with
      | none => .panic
      | some pl =>
          match findAttachmentMetadata pl partID with
          | none => .panic
          | some content =>
              match content.body with
              | none => .fail ("No attachmentID found for " ++ msgID ++ "/" ++ partID)
              | some b =>
                  if b.attachmentId = "" then
                    .fail ("No attachmentID found for " ++ msgID ++ "/" ++ partID)
                  else
                    match getAttachment msgID b.attachmentId with
                    | .error e =>
                        .fail ("get attachment " ++ b.attachmentId ++ " failed: " ++ e)
                    | .ok data =>
                        match extractAttachmentContent conv data content.mimeType
                            content.filename with
                        | .error e =>
                            previewLoop getAttachment conv msgID payload rest
                              (acc ++ [⟨partID, content.filename, content.mimeType, [], e⟩])
                        | .ok c =>
                            previewLoop getAttachment conv msgID payload rest
                              (acc ++ [⟨partID, content.filename, content.mimeType, c, ""⟩])

/-- Go `PreviewAttachments`, with the mail provider and PDF converter as
parameters. -/
def PreviewAttachments (getMessage : String → Except String GmailMessage)
    (getAttachment : String → String → Except String (List Nat))
    (conv : List Nat → Except String (List Nat))
    (msgID : String) (attachmentIDs : List String) : CallOutcome :=
  match getMessage msgID with
  | .error e => .fail ("get message failed: " ++ e)
  | .ok msg => previewLoop getAttachment conv msgID msg.payload attachmentIDs []

/-! ## Claim C6: body selection order -/

mutual

/-- All parts of a message in depth-first preorder (parent before children,
children in original order). -/
def partPreorder : MessagePart → List MessagePart
  | .mk pid fn mt body parts => .mk pid fn mt body parts :: partPreorderList parts

def partPreorderList : List MessagePart → List MessagePart
  | [] => []
  | p :: rest => partPreorder p ++ partPreorderList rest

end

/-- The decoded body of the first part in the list yielding a non-empty
`text/plain` body. -/
def firstTextBody : List MessagePart → List Nat
  | [] => []
  | p :: rest => keepFirst (extractBodyFromPart p).1 (firstTextBody rest)

/-- The decoded body of the first part in the list yielding a non-empty
`text/html` body. -/
def firstHtmlBody : List MessagePart → List Nat
  | [] => []
  | p :: rest => keepFirst (extractBodyFromPart p).2 (firstHtmlBody rest)

theorem keepFirst_nil (a : List Nat) : keepFirst a [] = a := by
  by_cases h : a = [] <;> simp [keepFirst, h]

theorem keepFirst_nil_left (b : List Nat) : keepFirst [] b = b := by
  simp [keepFirst]

theorem keepFirst_assoc (a b c : List Nat) :
    keepFirst (keepFirst a b) c = keepFirst a (keepFirst b c) := by
  by_cases ha : a = [] <;> by_cases hb : b = [] <;> simp [keepFirst, ha, hb]

theorem keepFirst_absorb (a b : List Nat) :
    keepFirst a (keepFirst a b) = keepFirst a b := by
  by_cases ha : a = [] <;> simp [keepFirst, ha]

theorem firstTextBody_append (x y : List MessagePart) :
    firstTextBody (x ++ y) = keepFirst (firstTextBody x) (firstTextBody y) := by
  induction x with
  | nil => simp [firstTextBody, keepFirst_nil_left]
  | cons p rest ih => simp [firstTextBody, ih, keepFirst_assoc]

theorem firstHtmlBody_append (x y : List MessagePart) :
    firstHtmlBody (x ++ y) = keepFirst (firstHtmlBody x) (firstHtmlBody y) := by
  induction x with
  | nil => simp [firstHtmlBody, keepFirst_nil_left]
  | cons p rest ih => simp [firstHtmlBody, ih, keepFirst_assoc]

theorem keepFirst_step (t x w z : List Nat) :
    keepFirst (keepFirst (keepFirst t x) (keepFirst x w)) z =
      keepFirst t (keepFirst (keepFirst x w) z) := by
  by_cases ht : t = [] <;> by_cases hx : x = [] <;> simp [keepFirst, ht, hx]

theorem bodies_preorder :
    (∀ p, extractMessageBodies p =
      (firstTextBody (partPreorder p), firstHtmlBody (partPreorder p))) ∧
    (∀ l, ∀ t h, bodiesLoop l t h =
      (keepFirst t (firstTextBody (partPreorderList l)),
        keepFirst h (firstHtmlBody (partPreorderList l)))) := by
  refine part_ind _ _ ?_ ?_ ?_
  · intro pid fn mt body parts ih
    rw [extractMessageBodies, ih, partPreorder, firstTextBody, firstHtmlBody]
  · intro t h
    rw [bodiesLoop, partPreorderList, firstTextBody, firstHtmlBody,
      keepFirst_nil, keepFirst_nil]
  · intro part rest hp hq t h
    cases part with
    | mk pid2 fn2 mt2 body2 parts2 =>
        rw [bodiesLoop, hq, partPreorderList, firstTextBody_append, firstHtmlBody_append]
        simp only [MessagePart.parts]
        have hpreT : firstTextBody (partPreorder (.mk pid2 fn2 mt2 body2 parts2)) =
            keepFirst (extractBodyFromPart (.mk pid2 fn2 mt2 body2 parts2)).1
              (firstTextBody (partPreorderList parts2)) := by
          rw [partPreorder, firstTextBody]
        have hpreH : firstHtmlBody (partPreorder (.mk pid2 fn2 mt2 body2 parts2)) =
            keepFirst (extractBodyFromPart (.mk pid2 fn2 mt2 body2 parts2)).2
              (firstHtmlBody (partPreorderList parts2)) := by
          rw [partPreorder, firstHtmlBody]
        by_cases hie : parts2.isEmpty = false
        · rw [if_pos hie, if_pos hie, hp, hpreT, hpreH]
          exact Prod.ext (keepFirst_step _ _ _ _) (keepFirst_step _ _ _ _)
        · have hemp : parts2 = [] := by
            rw [Bool.not_eq_false, List.isEmpty_iff] at hie
            exact hie
          subst hemp
          rw [if_neg hie, if_neg hie, hpreT, hpreH, partPreorderList,
            firstTextBody, firstHtmlBody, keepFirst_nil, keepFirst_nil]
          exact Prod.ext (keepFirst_assoc _ _ _) (keepFirst_assoc _ _ _)

/-- A `multipart/mixed` part whose nested child carries the plain body
`"deep!"` (invalid base64, so it decodes to itself), next to a direct child
carrying the plain body `"top!!"`. -/
def c6Root : MessagePart :=
  .mk "" "" "multipart/mixed" none
    [.mk "1" "" "multipart/mixed" none
      [.mk "1.1" "" "text/plain" (some ⟨"", 0, [100, 101, 101, 112, 33]⟩) []],
     .mk "2" "" "text/plain" (some ⟨"", 0, [116, 111, 112, 33, 33]⟩) []]

/-- **C6 counterexample**: the body nested two levels deep inside the first
child is selected even though the second direct child has a non-empty
`text/plain` body, because recursion into a child happens before the next
sibling is checked: the claim's "direct child before two levels deep" fails. -/
theorem claim_C6_counterexample :
    extractMessageBodies c6Root = ([100, 101, 101, 112, 33], []) ∧
    (extractBodyFromPart (.mk "2" "" "text/plain"
      (some ⟨"", 0, [116, 111, 112, 33, 33]⟩) [])).1 = [116, 111, 112, 33, 33] ∧
    ([100, 101, 101, 112, 33] : List Nat) ≠ [116, 111, 112, 33, 33] := by
  refine ⟨by decide, by decide, by decide⟩

/-- **C6 amended**: body selection is first-match in depth-first preorder —
the root part is checked first, then each direct child in order, recursing
into a child's subtree before moving to the next child.  So the root beats
everything and a part beats its own descendants, but an earlier child's
descendants beat a later direct child.  Whenever a non-empty `text/plain`
body is found, `previewText` returns it verbatim in preference to any
`text/html` body. -/
theorem claim_C6_amended :
    (∀ p, extractMessageBodies p =
      (firstTextBody (partPreorder p), firstHtmlBody (partPreorder p))) ∧
    (∀ (conv : List Nat → Except String (List Nat)) (textBody htmlBody : List Nat),
      textBody ≠ [] → previewText conv textBody htmlBody = .ok textBody) := by
  refine ⟨bodies_preorder.1, ?_⟩
  intro conv textBody htmlBody ht
  rw [previewText, if_pos ht]

/-- Witness for the amended C6. -/
theorem claim_C6_witness :
    extractMessageBodies c6Root =
      (firstTextBody (partPreorder c6Root), firstHtmlBody (partPreorder c6Root)) ∧
    previewText (fun _ => .error "down") [84] [72] = .ok [84] :=
  ⟨claim_C6_amended.1 c6Root, claim_C6_amended.2 _ [84] [72] (by decide)⟩

/-! ## Claim C7: the two-attempt base64 scheme -/

/-- **C7**: body-part decoding tries padded URL-safe base64 first and falls
back to unpadded; in the body extractor a double failure returns the
original string unchanged (fail-soft), while in the attachment preview path
the same double failure is a hard error for that item. -/
theorem claim_C7_decode_fallback :
    (∀ s v, decodeB64 true s = some v → decodeBase64URL s = v) ∧
    (∀ s v, decodeB64 true s = none → decodeB64 false s = some v →
      decodeBase64URL s = v) ∧
    (∀ s, decodeB64 true s = none → decodeB64 false s = none →
      decodeBase64URL s = s) ∧
    (∀ (conv : List Nat → Except String (List Nat)) s mimeType filename,
      decodeB64 true s = none → decodeB64 false s = none →
      extractAttachmentContent conv s mimeType filename =
        .error "failed to decode attachment") := by
  refine ⟨?_, ?_, ?_, ?_⟩
  · intro s v h
    rw [decodeBase64URL, h]
  · intro s v h1 h2
    rw [decodeBase64URL, h1, h2]
  · intro s h1 h2
    rw [decodeBase64URL, h1, h2]
  · intro conv s mimeType filename h1 h2
    rw [extractAttachmentContent, h1, h2]

/-- Witness for C7: `"QQ"` fails padded decoding and decodes to `"A"`
unpadded; `"!"` fails both and is returned raw by the body extractor but is
a hard error in the attachment path. -/
theorem claim_C7_witness :
    decodeB64 true [81, 81] = none ∧
    decodeB64 false [81, 81] = some [65] ∧
    decodeBase64URL [81, 81] = [65] ∧
    decodeBase64URL [33] = [33] ∧
    extractAttachmentContent (fun _ => .ok []) [33] "text/plain" "f.txt" =
      .error "failed to decode attachment" :=
  ⟨by decide, by decide,
    claim_C7_decode_fallback.2.1 [81, 81] [65] (by decide) (by decide),
    claim_C7_decode_fallback.2.2.1 [33] (by decide) (by decide),
    claim_C7_decode_fallback.2.2.2 _ [33] "text/plain" "f.txt" (by decide) (by decide)⟩

/-! ## Claim C5: PreviewAttachments failure behavior -/

/-- The message payload of the C5 scenario: two resolvable attachment parts
(one of unsupported type) and one part without an attachment reference. -/
def c5Payload : MessagePart :=
  .mk "" "" "multipart/mixed" none
    [.mk "1" "document.txt" "text/plain" (some ⟨"attach-1", 100, []⟩) [],
     .mk "3" "c.bin" "application/octet-stream" (some ⟨"attach-3", 10, []⟩) [],
     .mk "4" "d.bin" "application/octet-stream" (some ⟨"", 0, []⟩) []]

def c5GetMessage : String → Except String GmailMessage :=
  fun _ => .ok ⟨some c5Payload⟩

def c5GetAttachment : String → String → Except String (List Nat) :=
  fun _ attachID =>
    if attachID = "attach-1" then .ok [86, 71, 86, 52, 100, 65, 61, 61]
    else if attachID = "attach-3" then .ok [86, 71, 86, 52]
    else .error "not found"

def c5Conv : List Nat → Except String (List Nat) := fun _ => .ok [42]

/-- **C5**: evaluation of the code at the failing input.  A requested
attachment id that resolves to no part makes `findAttachmentMetadata`
return `nil`, and the following `content.Body` dereference panics — the
call does not return an error result as the claim states.  An id that
resolves to a part without an attachment reference does produce the hard
error, and an unsupported-type item only yields a per-item error string
while the sibling item still succeeds. -/
theorem claim_C5_unresolved_id_panics :
    PreviewAttachments c5GetMessage c5GetAttachment c5Conv "m" ["nope"] = .panic ∧
    PreviewAttachments c5GetMessage c5GetAttachment c5Conv "m" ["4"] =
      .fail "No attachmentID found for m/4" ∧
    PreviewAttachments c5GetMessage c5GetAttachment c5Conv "m" ["1", "3"] =
      .ok [⟨"1", "document.txt", "text/plain", [84, 101, 120, 116], ""⟩,
        ⟨"3", "c.bin", "application/octet-stream", [],
          "unsupported file type: application/octet-stream"⟩] := by
  refine ⟨by decide, by decide, by decide⟩

/-! ## Claim C10: attachment descriptor ids -/

/-- The descriptor the root-level check of `extractAttachments` produces:
its id is the body's attachment-reference id. -/
def rootAttachment : MessagePart → List Attachment
  | .mk _ fn mt body _ =>
      match body with
      | some b =>
          if b.attachmentId ≠ "" then [⟨b.attachmentId, fn, mt, b.size⟩] else []
      | none => []

/-- The descriptor the direct-child check of `extractAttachments` produces
for a part: its id is the part's tree-position id (`PartId`). -/
def childDescriptor (q : MessagePart) : Option Attachment :=
  match q.body with
  | some b =>
      if b.attachmentId ≠ "" then
        some ⟨q.partId, q.filename, q.mimeType, b.size⟩
      else none
  | none => none

mutual

/-- Every part that carries an attachment reference is a leaf (no
sub-parts) — true of real Gmail part trees, where attachments are leaf
parts. -/
def leafAttachments : MessagePart → Bool
  | .mk _ _ _ body parts =>
      (match body with
        | some b => decide (b.attachmentId = "") || parts.isEmpty
        | none => true) && leafAttachmentsList parts

def leafAttachmentsList : List MessagePart → Bool
  | [] => true
  | p :: rest => leafAttachments p && leafAttachmentsList rest

end

/-- A non-root part that both carries an attachment reference and has
sub-parts: recursion re-applies the root-level check to it. -/
def c10Root : MessagePart :=
  .mk "" "" "" none
    [.mk "1" "f" "m" (some ⟨"attA", 5, []⟩) [.mk "1.1" "" "" none []]]

/-- **C10 counterexample**: the non-root part `"1"` produces two
descriptors — one with its `PartId` and, via the recursive root-level
check, one with its attachment-reference id `"attA"`, which is not the
`PartId` of any part in the tree.  So not every non-root descriptor takes
its id from `PartId`. -/
theorem claim_C10_counterexample :
    extractAttachments c10Root = [⟨"1", "f", "m", 5⟩, ⟨"attA", "f", "m", 5⟩] ∧
    (partPreorder c10Root).map MessagePart.partId = ["", "1", "1.1"] ∧
    "attA" ∉ (partPreorder c10Root).map MessagePart.partId := by
  refine ⟨by decide, by decide, by decide⟩

theorem attachments_characterization :
    (∀ p, leafAttachments p = true →
      extractAttachments p =
        rootAttachment p ++ (partPreorderList p.parts).filterMap childDescriptor) ∧
    (∀ l, leafAttachmentsList l = true →
      attachmentsLoop l = (partPreorderList l).filterMap childDescriptor) := by
  refine part_ind _ _ ?_ ?_ ?_
  · intro pid fn mt body parts ih h
    simp only [leafAttachments, Bool.and_eq_true] at h
    rw [extractAttachments.eq_def]
    simp only [ih h.2]
    rfl
  · intro _
    rfl
  · intro part rest hp hq h
    simp only [leafAttachmentsList, Bool.and_eq_true] at h
    obtain ⟨h1, h2⟩ := h
    cases part with
    | mk pid2 fn2 mt2 body2 parts2 =>
        have h1' := h1
        simp only [leafAttachments, Bool.and_eq_true] at h1'
        obtain ⟨hb1, _⟩ := h1'
        rw [attachmentsLoop, hq h2, partPreorderList, List.filterMap_append, partPreorder]
        simp only [MessagePart.body, MessagePart.parts, MessagePart.partId,
          MessagePart.filename, MessagePart.mimeType]
        cases body2 with
        | none =>
            simp only [] at hb1 ⊢
            rw [List.filterMap_cons_none
              (show childDescriptor (.mk pid2 fn2 mt2 none parts2) = none from rfl)]
            by_cases hie : parts2.isEmpty = false
            · rw [if_pos hie, hp h1]
              simp only [MessagePart.parts]
              rw [show rootAttachment (.mk pid2 fn2 mt2 none parts2) = [] from rfl]
              simp
            · have hemp : parts2 = [] := by
                rw [Bool.not_eq_false, List.isEmpty_iff] at hie
                exact hie
              subst hemp
              rw [if_neg hie, partPreorderList]
              simp
        | some b =>
            simp only [] at hb1 ⊢
            by_cases ha : b.attachmentId = ""
            · have hcd : childDescriptor (.mk pid2 fn2 mt2 (some b) parts2) = none := by
                show (if b.attachmentId ≠ "" then
                  some (⟨(MessagePart.mk pid2 fn2 mt2 (some b) parts2).partId,
                    (MessagePart.mk pid2 fn2 mt2 (some b) parts2).filename,
                    (MessagePart.mk pid2 fn2 mt2 (some b) parts2).mimeType, b.size⟩ : Attachment)
                  else none) = none
                rw [ha]
                simp
              rw [List.filterMap_cons_none hcd, ha]
              simp only [ne_eq, not_true_eq_false, Bool.false_eq_true, if_false,
                List.nil_append]
              by_cases hie : parts2.isEmpty = false
              · rw [if_pos hie, hp h1]
                simp only [MessagePart.parts]
                have hroot : rootAttachment (.mk pid2 fn2 mt2 (some b) parts2) = [] := by
                  show (if b.attachmentId ≠ "" then
                    [(⟨b.attachmentId, fn2, mt2, b.size⟩ : Attachment)] else []) = []
                  rw [ha]
                  simp
                rw [hroot]
                simp
              · have hemp : parts2 = [] := by
                  rw [Bool.not_eq_false, List.isEmpty_iff] at hie
                  exact hie
                subst hemp
                rw [if_neg hie, partPreorderList]
                simp
            · have hleaf : parts2.isEmpty = true := by
                rw [Bool.or_eq_true] at hb1
                rcases hb1 with hb1 | hb1
                · exact absurd (of_decide_eq_true hb1) ha
                · exact hb1
              have hemp : parts2 = [] := List.isEmpty_iff.mp hleaf
              subst hemp
              have hane : b.attachmentId ≠ "" := ha
              have hcd : childDescriptor (.mk pid2 fn2 mt2 (some b) []) =
                  some ⟨pid2, fn2, mt2, b.size⟩ := by
                show (if b.attachmentId ≠ "" then
                  some (⟨(MessagePart.mk pid2 fn2 mt2 (some b) []).partId,
                    (MessagePart.mk pid2 fn2 mt2 (some b) []).filename,
                    (MessagePart.mk pid2 fn2 mt2 (some b) []).mimeType, b.size⟩ : Attachment)
                  else none) = some ⟨pid2, fn2, mt2, b.size⟩
                rw [if_pos hane]
                rfl
              rw [List.filterMap_cons_some hcd]
              rw [if_pos hane]
              rw [if_neg (show ¬((List.isEmpty (α := MessagePart) []) = false) by decide),
                partPreorderList]
              simp

theorem find_none_iff :
    (∀ p id, findAttachmentMetadata p id = none ↔
      ∀ q ∈ partPreorder p, q.body.isSome = true → q.partId ≠ id) ∧
    (∀ l id, findLoop l id = none ↔
      ∀ q ∈ partPreorderList l, q.body.isSome = true → q.partId ≠ id) := by
  refine part_ind _ _ ?_ ?_ ?_
  · intro pid fn mt body parts ih id
    rw [findAttachmentMetadata, partPreorder]
    by_cases hc : body.isSome = true ∧ pid = id
    · rw [if_pos hc]
      simp only [List.mem_cons]
      constructor
      · intro h; cases h
      · intro h
        exfalso
        exact h _ (Or.inl rfl) hc.1 hc.2
    · rw [if_neg hc, ih id]
      simp only [List.mem_cons]
      constructor
      · intro h q hq hs
        rcases hq with hq | hq
        · subst hq
          rw [MessagePart.body] at hs
          rw [MessagePart.partId]
          intro he
          exact hc ⟨hs, he⟩
        · exact h q hq hs
      · intro h q hq
        exact h q (Or.inr hq)
  · intro id
    rw [findLoop, partPreorderList]
    simp
  · intro part rest hp hq id
    rw [findLoop.eq_def, partPreorderList]
    cases hf : findAttachmentMetadata part id with
    | some found =>
        simp only [hf]
        constructor
        · intro h; cases h
        · intro h
          exfalso
          have := (hp id).mpr fun q hqq hs => h q (List.mem_append_left _ hqq) hs
          rw [hf] at this
          cases this
    | none =>
        simp only [hf]
        rw [hq id]
        have hpart := (hp id).mp hf
        constructor
        · intro h q hqq hs
          rcases List.mem_append.mp hqq with hqq | hqq
          · exact hpart q hqq hs
          · exact h q hqq hs
        · intro h q hqq
          exact h q (List.mem_append_right _ hqq)

/-- **C10 amended**: the root-level check takes the descriptor id from the
body's attachment-reference id, and the direct-child check takes it from
the part's `PartId`; recursion re-applies the root-level check, so when
every attachment-bearing part is a leaf (as in real Gmail trees) the
descriptor list is exactly the root descriptor followed by one
`PartId`-keyed descriptor per attachment-bearing descendant in preorder —
and the part-id lookup used by attachment preview resolves an id exactly
when some part with a body carries it as `PartId` (so a root descriptor id
that is no part's `PartId` never resolves). -/
theorem claim_C10_amended (p : MessagePart) (h : leafAttachments p = true) (id : String) :
    extractAttachments p =
      rootAttachment p ++ (partPreorderList p.parts).filterMap childDescriptor ∧
    (findAttachmentMetadata p id = none ↔
      ∀ q ∈ partPreorder p, q.body.isSome = true → q.partId ≠ id) :=
  ⟨attachments_characterization.1 p h, find_none_iff.1 p id⟩

/-- Witness for the amended C10: a leaf-attachment tree whose only
attachment-bearing part is the leaf `"7"` with attachment id `"attX"`;
looking up `"attX"` (an attachment id, not a `PartId`) resolves nothing. -/
theorem claim_C10_witness :
    extractAttachments (MessagePart.mk "" "r" "mr" none
        [.mk "7" "f" "m" (some ⟨"attX", 2, []⟩) []]) =
      rootAttachment (MessagePart.mk "" "r" "mr" none
        [.mk "7" "f" "m" (some ⟨"attX", 2, []⟩) []]) ++
        (partPreorderList (MessagePart.mk "" "r" "mr" none
          [.mk "7" "f" "m" (some ⟨"attX", 2, []⟩) []]).parts).filterMap childDescriptor ∧
    findAttachmentMetadata (MessagePart.mk "" "r" "mr" none
        [.mk "7" "f" "m" (some ⟨"attX", 2, []⟩) []]) "attX" = none :=
  ⟨(claim_C10_amended _ (by decide) "attX").1,
    ((claim_C10_amended _ (by decide) "attX").2).mpr (by decide)⟩

end GmailMCP
